import Mathlib

/-! # cert-manager-webhook-hetzner: zone search, record names and the solver

A shallow embedding of `internal/hetzner.go` and `main.go`.

* Go strings are byte sequences.  Every string operation the program uses
  (`strings.TrimSuffix`, `strings.HasSuffix`, `strings.Split` on `"."`,
  `strings.Join`, `==`, concatenation) works position by position and never
  looks inside an element, so a string is modelled as a list of characters.
* A Go `error` is `nil` or a value carrying a message: `Option Str`.
* A Go call either returns, panics, or ends the process (`klog.Fatal`); it may
  read and change the outside world.  `Go ω α` is the type of such a call over
  a world of type `ω`.
* Log lines (`klog.Infof`, `klog.Warningf`, `klog.Errorf`, `klog.Error`) do not
  influence control flow or results and are left out; `klog.Fatal` is kept.
-/

namespace Hetzner

/-- A Go string. -/
abbrev Str := List Char

/-- A Go error: `none` is `nil`, `some msg` is an error whose text is `msg`. -/
abbrev GoError := Option Str

/-! ## The `strings` functions the program calls -/

/-- The Go function `strings.HasSuffix(s, suffix)`:
`len(s) >= len(suffix) && s[len(s)-len(suffix):] == suffix`. -/
def HasSuffix (s suffix : Str) : Bool :=
  decide (suffix.length ≤ s.length) && (s.drop (s.length - suffix.length) == suffix)

/-- The Go function `strings.TrimSuffix(s, suffix)`: `s` without the trailing
`suffix` when it has it, `s` unchanged otherwise. -/
def TrimSuffix (s suffix : Str) : Str :=
  if HasSuffix s suffix then s.take (s.length - suffix.length) else s

/-- The Go function `strings.Split(s, sep)` for a one-byte separator, the only
way the program calls it (`sep = "."`): the substrings between the separators,
always at least one. -/
def Split : Str → Char → List Str
  | [], _ => [[]]
  | c :: cs, sep =>
    if c = sep then [] :: Split cs sep
    else
      match Split cs sep with
      | [] => [[c]]
      | p :: ps => (c :: p) :: ps

/-- The Go function `strings.Join(elems, sep)`. -/
def Join : List Str → Str → Str
  | [], _ => []
  | [a], _ => a
  | a :: b :: rest, sep => a ++ sep ++ Join (b :: rest) sep

/-! ## Calls with effects -/

/-- How a Go call ends. -/
inductive Outcome (α : Type) where
  /-- The call returns `a`. -/
  | ret (a : α) : Outcome α
  /-- The call panics with a run-time error. -/
  | panic (msg : Str) : Outcome α
  /-- The process is terminated by `klog.Fatal`. -/
  | fatal : Outcome α
  deriving DecidableEq, Repr

/-- A Go call over a world `ω`: from the world before the call to how the call
ends and the world after it. -/
def Go (ω : Type) (α : Type) : Type := ω → Outcome α × ω

/-- Sequencing of calls: a panic or a process exit skips what follows. -/
def Go.bind {ω α β : Type} (m : Go ω α) (f : α → Go ω β) : Go ω β := fun w =>
  match m w with
  | (Outcome.ret a, w1) => f a w1
  | (Outcome.panic msg, w1) => (Outcome.panic msg, w1)
  | (Outcome.fatal, w1) => (Outcome.fatal, w1)

/-- A call that returns `a` and leaves the world as it is. -/
def Go.pure {ω α : Type} (a : α) : Go ω α := fun w => (Outcome.ret a, w)

instance (ω : Type) : Monad (Go ω) where
  pure := Go.pure
  bind := Go.bind

namespace Internal

/-! ## `internal/hetzner.go` -/

/-- The Go type `zoneIdSearcher`: `func(zoneName string) (string, error)`. -/
abbrev zoneIdSearcher (ω : Type) : Type := Str → Go ω (Str × GoError)

/-- The error of `searchZoneName` for an input with fewer than two parts:
`"unable to determine potential zones from searchZone: %s"`. -/
def errUndetermined (searchZone : Str) : Str :=
  "unable to determine potential zones from searchZone: ".toList ++ searchZone

/-- The error of `searchZoneName` when no potential zone has an identifier:
`"unable to find a registered Hetzner DNS zone for domain: %s or its parents"`. -/
def errNotFound (searchZone : Str) : Str :=
  "unable to find a registered Hetzner DNS zone for domain: ".toList ++ searchZone
    ++ " or its parents".toList

/-- The loop `for i := 0; i <= len(parts)-2; i++` of `searchZoneName`, entered at
index `i` with `remaining` iterations left (`remaining = len(parts)-1-i`), and
the `return` after it. -/
def searchZoneNameLoop {ω : Type} (searchZone : Str) (searcher : zoneIdSearcher ω)
    (parts : List Str) : Nat → Nat → Go ω (Str × GoError)
  | 0, _ => pure ([], some (errNotFound searchZone))
  | remaining + 1, i => do
    let potentialZoneName := Join (parts.drop i) ".".toList
    let (zoneId, _err) ← searcher potentialZoneName
    if zoneId ≠ [] then
      pure (potentialZoneName, none)
    else
      searchZoneNameLoop searchZone searcher parts remaining (i + 1)

/-- The Go function `searchZoneName(searchZone, searcher)` of package `internal`. -/
def searchZoneName {ω : Type} (searchZone : Str) (searcher : zoneIdSearcher ω) :
    Go ω (Str × GoError) :=
  let normalizedSearchZone := TrimSuffix searchZone ".".toList
  let parts := Split normalizedSearchZone '.'
  if parts.length < 2 then
    pure ([], some (errUndetermined searchZone))
  else
    searchZoneNameLoop searchZone searcher parts (parts.length - 1) 0

/-- A resolver without effects, as a `zoneIdSearcher`. -/
def pureSearcher {ω : Type} (r : Str → Str × GoError) : zoneIdSearcher ω :=
  fun zoneName => pure (r zoneName)

/-- The test helper `mockZoneIdSearcher(zones, errs)` of `hetzner_test.go`, the
two maps given as association lists. -/
def mockZoneIdSearcher (zones : List (Str × Str)) (errs : List (Str × Str)) :
    Str → Str × GoError := fun zoneName =>
  match errs.lookup zoneName with
  | some err => ([], some err)
  | none =>
    match zones.lookup zoneName with
    | some zoneId => (zoneId, none)
    | none => ([], none)

/-- The candidate order of the zone search, from the label list of the
normalised input: the whole list first, then the list without its leading
label, and so on while at least two labels are left. -/
def labelSuffixes : List Str → List (List Str)
  | a :: b :: rest => (a :: b :: rest) :: labelSuffixes (b :: rest)
  | _ => []

/-- The candidate zone names of a search input, most specific first. -/
def candidates (searchZone : Str) : List Str :=
  (labelSuffixes (Split (TrimSuffix searchZone ".".toList) '.')).map
    (fun labels => Join labels ".".toList)

/-- The resolver `searcher` with every error it returns replaced by `nil`; the
identifiers and the effects are kept. -/
def withoutErrors {ω : Type} (searcher : zoneIdSearcher ω) : zoneIdSearcher ω :=
  fun zoneName => do
    let (zoneId, _err) ← searcher zoneName
    pure (zoneId, none)

/-- The first-match rule of the zone search over a list of names: the resolver
is asked for each name in order, each call in the world the call before it
left, and the first name for which it returns a non-empty identifier is the
result; the result is `none` when the resolver has returned an empty identifier
for every name of the list.  A resolver that panics or ends the process ends
the walk. -/
def firstResolving {ω : Type} (searcher : zoneIdSearcher ω) : List Str → Go ω (Option Str)
  | [] => pure none
  | c :: cs => do
    let (zoneId, _err) ← searcher c
    if zoneId ≠ [] then
      pure (some c)
    else
      firstResolving searcher cs

/-- The Go struct `Config` of package `internal`. -/
structure Config where
  ApiKey : Str := []
  ZoneName : Str := []
  ApiUrl : Str := []
  deriving DecidableEq, Repr, Inhabited

/-- The Go struct `Pagination`. -/
structure Pagination where
  Page : Int := 0
  PerPage : Int := 0
  LastPage : Int := 0
  TotalEntries : Int := 0
  deriving DecidableEq, Repr, Inhabited

/-- The Go struct `Meta`. -/
structure Meta where
  Pagination : Pagination := {}
  deriving DecidableEq, Repr, Inhabited

/-- The Go struct `Record`; its field `Type` is `Type_` here, `Type` being a keyword. -/
structure Record where
  Type_ : Str := []
  Id : Str := []
  Created : Str := []
  Modified : Str := []
  ZoneId : Str := []
  Name : Str := []
  Value : Str := []
  Ttl : Int := 0
  deriving DecidableEq, Repr, Inhabited

/-- The Go struct `Verification`. -/
structure Verification where
  Name : Str := []
  Token : Str := []
  deriving DecidableEq, Repr, Inhabited

/-- The Go struct `Zone`. -/
structure Zone where
  Id : Str := []
  Created : Str := []
  Modified : Str := []
  LegacyDnsHost : Str := []
  LegacyNs : List Str := []
  Name : Str := []
  Ns : List Str := []
  Owner : Str := []
  Paused : Bool := false
  Permission : Str := []
  Project : Str := []
  Registrar : Str := []
  Status : Str := []
  Ttl : Int := 0
  Verified : Str := []
  RecordsCount : Int := 0
  IsSecondaryDns : Bool := false
  TxtVerification : Verification := {}
  deriving DecidableEq, Repr, Inhabited

/-- The Go struct `RecordResponse`. -/
structure RecordResponse where
  Records : List Record := []
  Meta : Meta := {}
  deriving DecidableEq, Repr, Inhabited

/-- The Go struct `ZoneResponse`. -/
structure ZoneResponse where
  Zones : List Zone := []
  Meta : Meta := {}
  deriving DecidableEq, Repr, Inhabited

end Internal

namespace Main

/-! ## `main.go`

What `main.go` takes from outside the repository is gathered in `Env`: the HTTP
client, the Kubernetes client, `encoding/json`, `strings.EqualFold` and the `%q`
verb of `fmt`.  The world of a call is the state of the outside (`state`) and
the calls of `callDnsApi` made so far (`calls`), which is how the theorems
observe which API calls a function issues. -/

/-- The Go struct `hetznerDNSProviderConfig`. -/
structure hetznerDNSProviderConfig where
  SecretRef : Str := []
  ZoneName : Str := []
  ApiUrl : Str := []
  deriving DecidableEq, Repr, Inhabited

/-- The fields of cert-manager's `v1alpha1.ChallengeRequest` that the program
reads; `Config` is the raw JSON of the solver configuration, `none` for a nil
pointer. -/
structure ChallengeRequest where
  ResourceNamespace : Str := []
  ResolvedZone : Str := []
  ResolvedFQDN : Str := []
  Key : Str := []
  Config : Option Str := none
  deriving DecidableEq, Repr, Inhabited

/-- The request `callDnsApi` builds: method, URL, body (`none` for a nil reader)
and the two headers it sets. -/
structure HttpRequest where
  method : Str
  url : Str
  body : Option Str
  contentType : Str
  authorization : Str
  deriving DecidableEq, Repr

/-- What `callDnsApi` reads of an `http.Response`: status code, status text, the
bytes `io.ReadAll` gets from the body, and the error of `resp.Body.Close()`. -/
structure HttpResponse where
  StatusCode : Int
  Status : Str
  Body : Str
  closeErr : GoError := none
  deriving DecidableEq, Repr

/-- One call of `callDnsApi`, with its four arguments. -/
structure ApiCall where
  url : Str
  method : Str
  body : Option Str
  config : Internal.Config
  deriving DecidableEq, Repr

/-- The world of a call of `main.go`. -/
structure World (σ : Type) where
  state : σ
  calls : List ApiCall

/-- The outside of `main.go`. -/
structure Env (σ : Type) where
  /-- The error of `http.NewRequestWithContext(ctx, method, url, body)`. -/
  newRequestErr : Str → Str → GoError
  /-- The call `client.Do(req)`: an error or a response. -/
  clientDo : HttpRequest → σ → Except Str HttpResponse × σ
  /-- The call `json.Unmarshal(data, &zones)` into a zero `ZoneResponse`. -/
  unmarshalZones : Str → Internal.ZoneResponse × GoError
  /-- The call `json.Unmarshal(data, &records)` into a zero `RecordResponse`. -/
  unmarshalRecords : Str → Internal.RecordResponse × GoError
  /-- The call `json.Unmarshal(raw, &cfg)` into a zero `hetznerDNSProviderConfig`. -/
  unmarshalConfig : Str → hetznerDNSProviderConfig × GoError
  /-- The call `c.client.CoreV1().Secrets(namespace).Get(ctx, name, opts)`: an
  error or the `Data` map of the secret. -/
  getSecret : Str → Str → σ → Except Str (Str → Option Str) × σ
  /-- The Go function `strings.EqualFold`. -/
  EqualFold : Str → Str → Bool
  /-- The `%q` verb of `fmt` on a string. -/
  quote : Str → Str

/-- The `%d` verb of `fmt` on an `int`. -/
def fmtInt (i : Int) : Str := (toString i).toList

/-- The Go function `loadConfig`. -/
def loadConfig {σ : Type} (env : Env σ) (cfgJSON : Option Str) :
    hetznerDNSProviderConfig × GoError :=
  let cfg : hetznerDNSProviderConfig := {}
  match cfgJSON with
  | none => (cfg, none)
  | some raw =>
    match env.unmarshalConfig raw with
    | (cfg, some err) => (cfg, some ("error decoding solver config: ".toList ++ err))
    | (cfg, none) => (cfg, none)

/-- The Go function `stringFromSecretData`. -/
def stringFromSecretData {σ : Type} (env : Env σ) (secretData : Str → Option Str)
    (key : Str) : Str × GoError :=
  match secretData key with
  | none => ([], some ("key ".toList ++ env.quote key ++ " not found in secret data".toList))
  | some data => (data, none)

/-- The Go function `recordName`. -/
def recordName (fqdn domain : Str) : Str :=
  let fqdnNormalized := TrimSuffix fqdn ".".toList
  let domainNormalized := TrimSuffix domain ".".toList
  if fqdnNormalized = domainNormalized then
    "@".toList
  else
    let suffix := ".".toList ++ domainNormalized
    if HasSuffix fqdnNormalized suffix then
      let record := TrimSuffix fqdnNormalized suffix
      if record = [] then
        []
      else
        record
    else
      []

/-- The Go function `callDnsApi`.  The call is entered in `calls`; the deferred
`resp.Body.Close()` ends the process through `klog.Fatal` when it fails. -/
def callDnsApi {σ : Type} (env : Env σ) (url method : Str) (body : Option Str)
    (config : Internal.Config) : Go (World σ) (Str × GoError) := fun w =>
  let calls := w.calls ++ [{ url := url, method := method, body := body, config := config }]
  match env.newRequestErr method url with
  | some err =>
    (Outcome.ret ([], some ("unable to execute request ".toList ++ err)),
      { state := w.state, calls := calls })
  | none =>
    let req : HttpRequest :=
      { method := method, url := url, body := body,
        contentType := "application/json".toList,
        authorization := "Bearer ".toList ++ config.ApiKey }
    match env.clientDo req w.state with
    | (Except.error err, st) => (Outcome.ret ([], some err), { state := st, calls := calls })
    | (Except.ok resp, st) =>
      match resp.closeErr with
      | some _ => (Outcome.fatal, { state := st, calls := calls })
      | none =>
        if resp.StatusCode = 200 then
          (Outcome.ret (resp.Body, none), { state := st, calls := calls })
        else
          let text := "Error calling API status:".toList ++ resp.Status ++ " url: ".toList ++ url
            ++ " method: ".toList ++ method
          (Outcome.ret ([], some text), { state := st, calls := calls })

/-- The Go function `searchZoneId`.  The last line, `zones.Zones[0].Id`, panics
when the list of zones is empty. -/
def searchZoneId {σ : Type} (env : Env σ) (config : Internal.Config) :
    Go (World σ) (Str × GoError) := do
  let url := config.ApiUrl ++ "/zones?name=".toList ++ config.ZoneName
  let (zoneRecords, err) ← callDnsApi env url "GET".toList none config
  match err with
  | some e =>
    pure ([], some ("API error getting zone info for '".toList ++ config.ZoneName
      ++ "': ".toList ++ e))
  | none =>
    let (zones, readErr) := env.unmarshalZones zoneRecords
    match readErr with
    | some e =>
      pure ([], some ("unable to unmarshal zone response for '".toList ++ config.ZoneName
        ++ "': ".toList ++ e))
    | none =>
      if zones.Meta.Pagination.TotalEntries = 0 then
        pure ([], none)
      else if zones.Meta.Pagination.TotalEntries > 1 then
        pure ([], some ("unexpected number of zones (".toList
          ++ fmtInt zones.Meta.Pagination.TotalEntries ++ ") found for name '".toList
          ++ config.ZoneName ++ "'".toList))
      else
        match zones.Zones with
        | zone :: _ => pure (zone.Id, none)
        | [] => fun w =>
          (Outcome.panic "runtime error: index out of range [0] with length 0".toList, w)

/-- The loop of `searchZoneName` in `main.go`, entered at index `i` with
`remaining` iterations left, and the `return` after it.  The local copy of
`config` is carried from one iteration to the next. -/
def searchZoneNameLoop {σ : Type} (env : Env σ) (searchZone : Str) (parts : List Str) :
    Nat → Nat → Internal.Config → Go (World σ) (Str × GoError)
  | 0, _, _ => pure ([], some (Internal.errNotFound searchZone))
  | remaining + 1, i, config => do
    let potentialZoneName := Join (parts.drop i) ".".toList
    let config := { config with ZoneName := potentialZoneName }
    let (zoneId, _err) ← searchZoneId env config
    if zoneId ≠ [] then
      pure (potentialZoneName, none)
    else
      searchZoneNameLoop env searchZone parts remaining (i + 1) config

/-- The Go function `searchZoneName(config, searchZone)` of `main.go`. -/
def searchZoneName {σ : Type} (env : Env σ) (config : Internal.Config) (searchZone : Str) :
    Go (World σ) (Str × GoError) :=
  let normalizedSearchZone := TrimSuffix searchZone ".".toList
  let parts := Split normalizedSearchZone '.'
  if parts.length < 2 then
    pure ([], some (Internal.errUndetermined searchZone))
  else
    searchZoneNameLoop env searchZone parts (parts.length - 1) 0 config

/-- The call `c.client.CoreV1().Secrets(namespace).Get(...)` as a call over the
world. -/
def getSecret {σ : Type} (env : Env σ) (namespace_ name : Str) :
    Go (World σ) (Except Str (Str → Option Str)) := fun w =>
  match env.getSecret namespace_ name w.state with
  | (r, st) => (Outcome.ret r, { state := st, calls := w.calls })

/-- The Go function `clientConfig`. -/
def clientConfig {σ : Type} (env : Env σ) (ch : ChallengeRequest) :
    Go (World σ) (Internal.Config × GoError) := do
  let config : Internal.Config := {}
  let (cfg, err) := loadConfig env ch.Config
  match err with
  | some e => pure (config, some e)
  | none =>
    let config := { config with ZoneName := cfg.ZoneName }
    let config := { config with ApiUrl := cfg.ApiUrl }
    let secretName := cfg.SecretRef
    let sec ← getSecret env ch.ResourceNamespace secretName
    match sec with
    | Except.error e =>
      pure (config, some ("unable to get secret `".toList ++ secretName ++ "/".toList
        ++ ch.ResourceNamespace ++ "`; ".toList ++ e))
    | Except.ok secData =>
      let (apiKey, err) := stringFromSecretData env secData "api-key".toList
      let config := { config with ApiKey := apiKey }
      match err with
      | some e =>
        pure (config, some ("unable to get api-key from secret `".toList ++ secretName
          ++ "/".toList ++ ch.ResourceNamespace ++ "`; ".toList ++ e))
      | none =>
        if config.ZoneName = [] then
          let searchDomain :=
            if ¬ HasSuffix ch.ResolvedZone ".".toList then ch.ResolvedZone ++ ".".toList
            else ch.ResolvedZone
          let (foundZone, err) ← searchZoneName env config searchDomain
          match err with
          | some e =>
            pure (config, some ("error searching for zone for ".toList ++ searchDomain
              ++ ": ".toList ++ e))
          | none =>
            let config := { config with ZoneName := foundZone }
            if config.ApiUrl = [] then
              pure ({ config with ApiUrl := "https://api.hetzner.cloud/v1".toList }, none)
            else
              pure (config, none)
        else
          if config.ApiUrl = [] then
            pure ({ config with ApiUrl := "https://api.hetzner.cloud/v1".toList }, none)
          else
            pure (config, none)

/-- The body `addTxtRecord` posts:
`\x7b"value":%q, "ttl":120, "type":"TXT", "name":%q, "zone_id":%q\x7d`. -/
def txtRecordJson {σ : Type} (env : Env σ) (key name zoneId : Str) : Str :=
  "\x7b\"value\":".toList ++ env.quote key
    ++ ", \"ttl\":120, \"type\":\"TXT\", \"name\":".toList ++ env.quote name
    ++ ", \"zone_id\":".toList ++ env.quote zoneId ++ "\x7d".toList

/-- The Go function `addTxtRecord`: the error of `searchZoneId` and the error of
the `POST` are logged and nothing else. -/
def addTxtRecord {σ : Type} (env : Env σ) (config : Internal.Config) (ch : ChallengeRequest) :
    Go (World σ) Unit := do
  let url := config.ApiUrl ++ "/records".toList
  let name := recordName ch.ResolvedFQDN config.ZoneName
  let (zoneId, _err) ← searchZoneId env config
  let jsonStr := txtRecordJson env ch.Key name zoneId
  let (_add, _err) ← callDnsApi env url "POST".toList (some jsonStr) config
  pure ()

/-- The Go method `Present`. -/
def Present {σ : Type} (env : Env σ) (ch : ChallengeRequest) : Go (World σ) GoError := do
  let (config, err) ← clientConfig env ch
  match err with
  | some e =>
    pure (some ("unable to get secret `".toList ++ ch.ResourceNamespace ++ "`; ".toList ++ e))
  | none =>
    addTxtRecord env config ch
    pure none

/-- The loop `for i := len(records.Records) - 1; i >= 0; i--` of `CleanUp`,
entered with `i + 1 = count`: the value of `recordId` after it. -/
def cleanUpLoop {σ : Type} (env : Env σ) (records : List Internal.Record) (name : Str) :
    Nat → Str
  | 0 => []
  | i + 1 =>
    if env.EqualFold (records.getD i default).Name name then
      (records.getD i default).Id
    else
      cleanUpLoop env records name i

/-- The Go method `CleanUp`. -/
def CleanUp {σ : Type} (env : Env σ) (ch : ChallengeRequest) : Go (World σ) GoError := do
  let (config, err) ← clientConfig env ch
  match err with
  | some e =>
    pure (some ("unable to get secret `".toList ++ ch.ResourceNamespace ++ "`; ".toList ++ e))
  | none =>
    let (zoneId, err) ← searchZoneId env config
    match err with
    | some e =>
      pure (some ("unable to find id for zone name `".toList ++ config.ZoneName
        ++ "`; ".toList ++ e))
    | none =>
      let url := config.ApiUrl ++ "/records?zone_id=".toList ++ zoneId
      let (dnsRecords, err) ← callDnsApi env url "GET".toList none config
      match err with
      | some e => pure (some ("unable to get DNS records ".toList ++ e))
      | none =>
        let (records, readErr) := env.unmarshalRecords dnsRecords
        match readErr with
        | some e => pure (some ("unable to unmarshal response ".toList ++ e))
        | none =>
          let name := recordName ch.ResolvedFQDN config.ZoneName
          let recordId := cleanUpLoop env records.Records name records.Records.length
          let url := config.ApiUrl ++ "/records/".toList ++ recordId
          let (_del, _err) ← callDnsApi env url "DELETE".toList none config
          pure none

/-! ## Test data

Concrete inputs for the theorems that evaluate the program: JSON texts as the
solver configuration and the directory deliver them, and a test double of the
outside that knows these texts. -/

/-- A solver configuration that names the secret, the zone and the API URL:
`{"secretName":"hetzner-secret","zoneName":"example.com","apiUrl":"https://dns.hetzner.com/api/v1"}`. -/
def configJSON : Str :=
  ("\x7b\"secretName\":\"hetzner-secret\",\"zoneName\":\"example.com\","
    ++ "\"apiUrl\":\"https://dns.hetzner.com/api/v1\"\x7d").toList

/-- A solver configuration that names the secret and the API URL and leaves the
zone to the zone search:
`{"secretName":"hetzner-secret","apiUrl":"https://dns.hetzner.com/api/v1"}`. -/
def configNoZoneJSON : Str :=
  ("\x7b\"secretName\":\"hetzner-secret\","
    ++ "\"apiUrl\":\"https://dns.hetzner.com/api/v1\"\x7d").toList

/-- A directory answer that lists the one zone `example.com`:
`{"zones":[{"id":"zone1","name":"example.com"}],"meta":{"pagination":{"total_entries":1}}}`. -/
def oneZoneJSON : Str :=
  ("\x7b\"zones\":[\x7b\"id\":\"zone1\",\"name\":\"example.com\"\x7d],"
    ++ "\"meta\":\x7b\"pagination\":\x7b\"total_entries\":1\x7d\x7d\x7d").toList

/-- A directory answer that lists no zone:
`{"zones":[],"meta":{"pagination":{"total_entries":0}}}`. -/
def noZoneJSON : Str :=
  ("\x7b\"zones\":[],\"meta\":\x7b\"pagination\":\x7b\"total_entries\":0\x7d\x7d\x7d").toList

/-- A directory answer that reports one match and lists no zone:
`{"zones":[],"meta":{"pagination":{"total_entries":1}}}`. -/
def countOnlyJSON : Str :=
  ("\x7b\"zones\":[],\"meta\":\x7b\"pagination\":\x7b\"total_entries\":1\x7d\x7d\x7d").toList

/-- A directory answer that lists three records:
`{"records":[{"id":"r1","name":"_acme-challenge"},{"id":"r2","name":"_ACME-Challenge"},{"id":"r3","name":"www"}]}`. -/
def threeRecordsJSON : Str :=
  ("\x7b\"records\":[\x7b\"id\":\"r1\",\"name\":\"_acme-challenge\"\x7d,"
    ++ "\x7b\"id\":\"r2\",\"name\":\"_ACME-Challenge\"\x7d,"
    ++ "\x7b\"id\":\"r3\",\"name\":\"www\"\x7d]\x7d").toList

/-- A directory with the zone `example.com`, which has the identifier `zone1`
and three records: what it answers to the requests of the program.  It has no
zone of any other name, and accepts every `POST` and `DELETE`. -/
def testDirectory (req : HttpRequest) : Except Str HttpResponse :=
  if req.method = "GET".toList then
    if req.url = "https://dns.hetzner.com/api/v1/zones?name=example.com".toList then
      Except.ok { StatusCode := 200, Status := "200 OK".toList, Body := oneZoneJSON }
    else if req.url = "https://dns.hetzner.com/api/v1/records?zone_id=zone1".toList then
      Except.ok { StatusCode := 200, Status := "200 OK".toList, Body := threeRecordsJSON }
    else
      Except.ok { StatusCode := 200, Status := "200 OK".toList, Body := noZoneJSON }
  else
    Except.ok { StatusCode := 200, Status := "200 OK".toList, Body := "\x7b\x7d".toList }

/-- The `%q` verb of `fmt` on one character, as `strconv.Quote` writes it: the
double quote and the backslash get a backslash, the control characters their
letter or `\x` and two hexadecimal digits, every other character is itself
(which is what `%q` does for the printable characters from U+0080 on). -/
def quoteChar (c : Char) : Str :=
  if c = Char.ofNat 34 ∨ c = Char.ofNat 92 then [Char.ofNat 92, c]
  else
    match [(7, 'a'), (8, 'b'), (12, 'f'), (10, 'n'), (13, 'r'), (9, 't'), (11, 'v')].lookup
        c.toNat with
    | some letter => [Char.ofNat 92, letter]
    | none =>
      if c.toNat < 32 ∨ c.toNat = 127 then
        [Char.ofNat 92, 'x', "0123456789abcdef".toList.getD (c.toNat / 16) '0',
          "0123456789abcdef".toList.getD (c.toNat % 16) '0']
      else [c]

/-- A test double of the outside, over a world without state.

* `http.NewRequestWithContext` fails on a URL with a control character.
* The HTTP client answers by `respond`.
* The decoders of `encoding/json` know the JSON texts of the test data, each
  with the value `json.Unmarshal` gives for it under the field tags of the
  structs, and return an error for every other input.
* The Kubernetes client has one secret, `hetzner-secret` in the namespace
  `cert-manager`, with the one key `api-key`; every other `Get` fails.
* `EqualFold` is `strings.EqualFold` on strings of ASCII characters, where the
  simple case folding is the one of the letters `A` to `Z`.
* `quote` is `%q` character by character. -/
def testEnv (respond : HttpRequest → Except Str HttpResponse) : Env Unit where
  newRequestErr := fun _ url =>
    if url.any (fun c => decide (c.toNat < 32 ∨ c.toNat = 127)) then
      some "net/url: invalid control character in URL".toList
    else none
  clientDo := fun req st => (respond req, st)
  unmarshalZones := fun data =>
    if data = oneZoneJSON then
      ({ Zones := [{ Id := "zone1".toList, Name := "example.com".toList }],
         Meta := { Pagination := { TotalEntries := 1 } } }, none)
    else if data = noZoneJSON then ({}, none)
    else if data = countOnlyJSON then
      ({ Zones := [], Meta := { Pagination := { TotalEntries := 1 } } }, none)
    else ({}, some "unexpected end of JSON input".toList)
  unmarshalRecords := fun data =>
    if data = threeRecordsJSON then
      ({ Records := [{ Id := "r1".toList, Name := "_acme-challenge".toList },
                     { Id := "r2".toList, Name := "_ACME-Challenge".toList },
                     { Id := "r3".toList, Name := "www".toList }] }, none)
    else ({}, some "unexpected end of JSON input".toList)
  unmarshalConfig := fun raw =>
    if raw = configJSON then
      ({ SecretRef := "hetzner-secret".toList, ZoneName := "example.com".toList,
         ApiUrl := "https://dns.hetzner.com/api/v1".toList }, none)
    else if raw = configNoZoneJSON then
      ({ SecretRef := "hetzner-secret".toList,
         ApiUrl := "https://dns.hetzner.com/api/v1".toList }, none)
    else ({}, some "unexpected end of JSON input".toList)
  getSecret := fun namespace_ name st =>
    if namespace_ = "cert-manager".toList ∧ name = "hetzner-secret".toList then
      (Except.ok (fun key => if key = "api-key".toList then some "token".toList else none), st)
    else
      (Except.error ("secrets ".toList ++ [Char.ofNat 34] ++ name ++ [Char.ofNat 34]
        ++ " not found".toList), st)
  EqualFold := fun a b => a.map Char.toLower == b.map Char.toLower
  quote := fun str => [Char.ofNat 34] ++ (str.map quoteChar).flatten ++ [Char.ofNat 34]

/-- A challenge for `_acme-challenge.example.com.` in the namespace
`cert-manager`, with the solver configuration `raw`. -/
def testChallenge (raw : Str) : ChallengeRequest :=
  { ResourceNamespace := "cert-manager".toList, ResolvedZone := "example.com.".toList,
    ResolvedFQDN := "_acme-challenge.example.com.".toList,
    Key := "dGhlIGtleQ".toList, Config := some raw }

/-- The configuration `clientConfig` returns for the solver configuration
`configJSON`. -/
def testConfig : Internal.Config :=
  { ApiKey := "token".toList, ZoneName := "example.com".toList,
    ApiUrl := "https://dns.hetzner.com/api/v1".toList }

/-- The resolver that `searchZoneName` of `main.go` uses: `searchZoneId` on the
configuration with `ZoneName` set to the name asked for. -/
def zoneIdResolver {σ : Type} (env : Env σ) (config : Internal.Config) :
    Internal.zoneIdSearcher (World σ) :=
  fun zoneName => searchZoneId env { config with ZoneName := zoneName }

end Main

/-! # Theorems -/

/-! ## Facts about the string functions -/

@[simp] theorem run_pure {ω α : Type} (a : α) (w : ω) :
    (pure a : Go ω α) w = (Outcome.ret a, w) := rfl

@[simp] theorem run_bind {ω α β : Type} (m : Go ω α) (f : α → Go ω β) (w : ω) :
    (m >>= f) w =
      match m w with
      | (Outcome.ret a, w1) => f a w1
      | (Outcome.panic msg, w1) => (Outcome.panic msg, w1)
      | (Outcome.fatal, w1) => (Outcome.fatal, w1) := rfl

theorem Split_ne_nil (s : Str) (sep : Char) : Split s sep ≠ [] := by
  induction s with
  | nil => simp [Split]
  | cons c cs ih =>
    unfold Split
    split
    · simp
    · split
      · simp
      · simp

theorem Join_cons_cons (a b : Str) (rest : List Str) (sep : Str) :
    Join (a :: b :: rest) sep = a ++ sep ++ Join (b :: rest) sep := rfl

theorem Join_Split (s : Str) (c : Char) : Join (Split s c) [c] = s := by
  induction s with
  | nil => rfl
  | cons x xs ih =>
    unfold Split
    split
    · rename_i h
      cases hs : Split xs c with
      | nil => exact absurd hs (Split_ne_nil xs c)
      | cons p ps =>
        rw [hs] at ih
        rw [Join_cons_cons, ih, h]
        rfl
    · cases hs : Split xs c with
      | nil => exact absurd hs (Split_ne_nil xs c)
      | cons p ps =>
        rw [hs] at ih
        simp only
        cases ps with
        | nil =>
          simp only [Join] at ih ⊢
          rw [ih]
        | cons q qs =>
          rw [Join_cons_cons] at ih ⊢
          rw [← ih]
          simp

theorem not_mem_of_mem_Split (c : Char) :
    ∀ (s : Str) (p : Str), p ∈ Split s c → c ∉ p := by
  intro s
  induction s with
  | nil =>
    intro p hp
    simp [Split] at hp
    simp [hp]
  | cons x xs ih =>
    intro p hp
    unfold Split at hp
    split at hp
    · rcases List.mem_cons.1 hp with h | h
      · simp [h]
      · exact ih p h
    · rename_i hx
      cases hs : Split xs c with
      | nil => exact absurd hs (Split_ne_nil xs c)
      | cons q qs =>
        rw [hs] at hp ih
        simp only [List.mem_cons] at hp
        rcases hp with h | h
        · subst h
          have hq : c ∉ q := ih q (List.mem_cons_self _ _)
          intro hmem
          rcases List.mem_cons.1 hmem with h1 | h1
          · exact hx h1.symm
          · exact hq h1
        · exact ih p (List.mem_cons_of_mem _ h)

theorem Split_of_not_mem (c : Char) : ∀ (p : Str), c ∉ p → Split p c = [p] := by
  intro p
  induction p with
  | nil => intro _; rfl
  | cons x xs ih =>
    intro h
    have hx : ¬ x = c := fun e => h (by simp [e])
    have hxs : c ∉ xs := fun e => h (List.mem_cons_of_mem _ e)
    unfold Split
    rw [if_neg hx, ih hxs]

theorem Split_append_sep (c : Char) :
    ∀ (p rest : Str), c ∉ p → Split (p ++ c :: rest) c = p :: Split rest c := by
  intro p
  induction p with
  | nil =>
    intro rest _
    show Split (c :: rest) c = _
    rw [Split, if_pos rfl]
  | cons x xs ih =>
    intro rest h
    have hx : ¬ x = c := fun e => h (by simp [e])
    have hxs : c ∉ xs := fun e => h (List.mem_cons_of_mem _ e)
    show Split (x :: (xs ++ c :: rest)) c = _
    rw [Split, if_neg hx, ih rest hxs]

theorem Split_Join (c : Char) :
    ∀ (labels : List Str), labels ≠ [] → (∀ p ∈ labels, c ∉ p) →
      Split (Join labels [c]) c = labels := by
  intro labels
  induction labels with
  | nil => intro h; exact absurd rfl h
  | cons a rest ih =>
    intro _ hall
    cases rest with
    | nil => exact Split_of_not_mem c a (hall a (List.mem_cons_self _ _))
    | cons b rest2 =>
      rw [Join_cons_cons]
      have ha : c ∉ a := hall a (List.mem_cons_self _ _)
      have hrest : ∀ p ∈ b :: rest2, c ∉ p := fun p hp => hall p (List.mem_cons_of_mem _ hp)
      have := ih (by simp) hrest
      rw [List.append_assoc]
      show Split (a ++ c :: Join (b :: rest2) [c]) c = _
      rw [Split_append_sep c a _ ha, this]

theorem HasSuffix_iff (s suffix : Str) : HasSuffix s suffix = true ↔ suffix <:+ s := by
  unfold HasSuffix
  constructor
  · intro h
    simp only [Bool.and_eq_true, decide_eq_true_eq, beq_iff_eq] at h
    refine ⟨s.take (s.length - suffix.length), ?_⟩
    have h2 := h.2
    generalize s.length - suffix.length = n at h2 ⊢
    rw [← h2, List.take_append_drop]
  · rintro ⟨q, rfl⟩
    simp

theorem TrimSuffix_append (q suffix : Str) : TrimSuffix (q ++ suffix) suffix = q := by
  unfold TrimSuffix
  rw [if_pos ((HasSuffix_iff _ _).2 ⟨q, rfl⟩)]
  simp

theorem TrimSuffix_of_not_suffix (s suffix : Str) (h : ¬ suffix <:+ s) :
    TrimSuffix s suffix = s := by
  unfold TrimSuffix
  rw [if_neg (fun hs => h ((HasSuffix_iff _ _).1 hs))]

theorem Join_append (xs ys : List Str) (sep : Str) (hx : xs ≠ []) (hy : ys ≠ []) :
    Join (xs ++ ys) sep = Join xs sep ++ sep ++ Join ys sep := by
  induction xs with
  | nil => exact absurd rfl hx
  | cons a rest ih =>
    cases rest with
    | nil =>
      cases ys with
      | nil => exact absurd rfl hy
      | cons b ys2 => rfl
    | cons b rest2 =>
      have h := ih (by simp)
      simp only [List.cons_append] at h ⊢
      rw [Join_cons_cons, Join_cons_cons, h]
      simp only [List.append_assoc]

/-- Joining the labels from index `i` on gives a string that ends the join of
all labels. -/
theorem Join_drop_suffix (parts : List Str) (sep : Str) (i : Nat) (hi : i < parts.length) :
    Join (parts.drop i) sep <:+ Join parts sep := by
  cases i with
  | zero => exact List.suffix_refl _
  | succ k =>
    have hsplit := List.take_append_drop (k + 1) parts
    have hx : parts.take (k + 1) ≠ [] := by
      intro e
      have hl := congrArg List.length e
      rw [List.length_take, List.length_nil] at hl
      omega
    have hy : parts.drop (k + 1) ≠ [] := by
      intro e
      have hl := congrArg List.length e
      rw [List.length_drop, List.length_nil] at hl
      omega
    have h := Join_append _ _ sep hx hy
    rw [hsplit] at h
    exact ⟨Join (parts.take (k + 1)) sep ++ sep, h.symm⟩

/-- A string with at least two labels is not empty. -/
theorem ne_nil_of_two_le_Split (s : Str) (c : Char) (h : 2 ≤ (Split s c).length) : s ≠ [] := by
  intro e
  rw [e] at h
  simp [Split] at h

/-- Stripping one trailing dot from `p + "." + d` strips it from `d`, when `d`
has at least two labels. -/
theorem TrimSuffix_prefix_dot (p d : Str)
    (hd : 2 ≤ (Split (TrimSuffix d ".".toList) '.').length) :
    TrimSuffix (p ++ ".".toList ++ d) ".".toList = p ++ ".".toList ++ TrimSuffix d ".".toList := by
  by_cases h : ".".toList <:+ d
  · obtain ⟨q, rfl⟩ := h
    rw [TrimSuffix_append, ← List.append_assoc, TrimSuffix_append]
  · rw [TrimSuffix_of_not_suffix d _ h] at hd ⊢
    have hne := ne_nil_of_two_le_Split d '.' hd
    apply TrimSuffix_of_not_suffix
    intro hs
    apply h
    refine List.suffix_of_suffix_length_le hs (List.suffix_append _ _) ?_
    have := List.length_pos.2 hne
    show 1 ≤ d.length
    omega

/-- A string that does not end in two dots does not end in a dot once one
trailing dot is stripped. -/
theorem not_dot_suffix_TrimSuffix (d : Str) (hd : ¬ "..".toList <:+ d) :
    ¬ ".".toList <:+ TrimSuffix d ".".toList := by
  by_cases h : ".".toList <:+ d
  · obtain ⟨q, rfl⟩ := h
    rw [TrimSuffix_append]
    rintro ⟨r, rfl⟩
    apply hd
    refine ⟨r, ?_⟩
    rw [List.append_assoc]
    rfl
  · rw [TrimSuffix_of_not_suffix d _ h]
    exact h

namespace Internal

/-! ## Facts about the candidate order -/

theorem mem_labelSuffixes :
    ∀ (labels ls : List Str), ls ∈ labelSuffixes labels → 2 ≤ ls.length ∧ ∀ p ∈ ls, p ∈ labels := by
  intro labels
  induction labels with
  | nil => intro ls h; simp [labelSuffixes] at h
  | cons a rest ih =>
    intro ls h
    cases rest with
    | nil => simp [labelSuffixes] at h
    | cons b rest2 =>
      simp only [labelSuffixes, List.mem_cons] at h
      rcases h with h | h
      · subst h
        exact ⟨by simp, fun p hp => hp⟩
      · obtain ⟨h1, h2⟩ := ih ls h
        exact ⟨h1, fun p hp => List.mem_cons_of_mem _ (h2 p hp)⟩

theorem two_le_labels_of_mem_candidates (searchZone c : Str) (h : c ∈ candidates searchZone) :
    2 ≤ (Split c '.').length := by
  unfold candidates at h
  obtain ⟨ls, hls, rfl⟩ := List.mem_map.1 h
  obtain ⟨h2, hsub⟩ := mem_labelSuffixes _ ls hls
  have hne : ls ≠ [] := by
    intro e
    rw [e] at h2
    simp at h2
  have hdot : ∀ p ∈ ls, '.' ∉ p := fun p hp => not_mem_of_mem_Split '.' _ p (hsub p hp)
  have := Split_Join '.' ls hne hdot
  show 2 ≤ (Split (Join ls ['.']) '.').length
  rw [this]
  exact h2

theorem candidates_head (searchZone : Str) :
    (candidates searchZone).head? =
      if 2 ≤ (Split (TrimSuffix searchZone ".".toList) '.').length then
        some (TrimSuffix searchZone ".".toList)
      else none := by
  unfold candidates
  have hj := Join_Split (TrimSuffix searchZone ".".toList) '.'
  cases hs : Split (TrimSuffix searchZone ".".toList) '.' with
  | nil => exact absurd hs (Split_ne_nil _ _)
  | cons a rest =>
    cases rest with
    | nil => simp [labelSuffixes]
    | cons b rest2 =>
      rw [hs] at hj
      simp only [labelSuffixes, List.map_cons, List.head?_cons, List.length_cons]
      rw [if_pos (by omega)]
      exact congrArg some hj

theorem searchZoneNameLoop_withoutErrors {ω : Type} (searchZone : Str)
    (searcher : zoneIdSearcher ω) (parts : List Str) :
    ∀ (remaining i : Nat) (w : ω),
      searchZoneNameLoop searchZone (withoutErrors searcher) parts remaining i w =
        searchZoneNameLoop searchZone searcher parts remaining i w := by
  intro remaining
  induction remaining with
  | zero => intro i w; rfl
  | succ n ih =>
    intro i w
    simp only [searchZoneNameLoop, withoutErrors, run_bind, run_pure]
    rcases hs : searcher (Join (parts.drop i) ".".toList) w with ⟨o, w1⟩
    cases o with
    | ret a =>
      simp only
      split
      · rfl
      · exact ih (i + 1) w1
    | panic msg => rfl
    | fatal => rfl

theorem searchZoneNameLoop_all_empty {ω : Type} (searchZone : Str)
    (searcher : zoneIdSearcher ω) (parts : List Str) :
    ∀ (remaining i : Nat) (w : ω), (parts.drop i).length = remaining + 1 →
      (∀ c ∈ (labelSuffixes (parts.drop i)).map (fun labels => Join labels ".".toList),
        ∀ w0 : ω, ∃ e w1, searcher c w0 = (Outcome.ret ([], e), w1)) →
      ∃ w2, searchZoneNameLoop searchZone searcher parts remaining i w =
        (Outcome.ret ([], some (errNotFound searchZone)), w2) := by
  intro remaining
  induction remaining with
  | zero => intro i w _ _; exact ⟨w, rfl⟩
  | succ n ih =>
    intro i w h hr
    have htail : parts.drop (i + 1) = (parts.drop i).tail := (List.tail_drop parts i).symm
    match hd : parts.drop i, h with
    | a :: b :: rest, hlen =>
      rw [hd] at htail hr
      simp only [List.tail_cons] at htail
      have hlen2 : (parts.drop (i + 1)).length = n + 1 := by
        rw [htail]
        simp at hlen ⊢
        omega
      obtain ⟨e, w1, hs⟩ := hr (Join (a :: b :: rest) ".".toList)
        (by simp [labelSuffixes]) w
      have hr2 : ∀ c ∈ (labelSuffixes (parts.drop (i + 1))).map
          (fun labels => Join labels ".".toList),
          ∀ w0 : ω, ∃ e w1, searcher c w0 = (Outcome.ret ([], e), w1) := by
        intro c hc
        rw [htail] at hc
        exact hr c (by
          simp only [labelSuffixes, List.map_cons, List.mem_cons]
          exact Or.inr hc)
      obtain ⟨w2, h2⟩ := ih (i + 1) w1 hlen2 hr2
      refine ⟨w2, ?_⟩
      simp only [searchZoneNameLoop, run_bind, hd, hs]
      simpa using h2

/-- The loop of `searchZoneName` is the first-match rule over the candidates
that are left. -/
theorem searchZoneNameLoop_firstResolving {ω : Type} (searchZone : Str)
    (searcher : zoneIdSearcher ω) (parts : List Str) :
    ∀ (remaining i : Nat) (w : ω), (parts.drop i).length = remaining + 1 →
      searchZoneNameLoop searchZone searcher parts remaining i w =
        (match firstResolving searcher
            ((labelSuffixes (parts.drop i)).map (fun labels => Join labels ".".toList)) w with
          | (Outcome.ret (some c), w1) => (Outcome.ret (c, none), w1)
          | (Outcome.ret none, w1) => (Outcome.ret ([], some (errNotFound searchZone)), w1)
          | (Outcome.panic msg, w1) => (Outcome.panic msg, w1)
          | (Outcome.fatal, w1) => (Outcome.fatal, w1)) := by
  intro remaining
  induction remaining with
  | zero =>
    intro i w h
    match hd : parts.drop i, h with
    | [a], _ => simp [searchZoneNameLoop, labelSuffixes, firstResolving]
  | succ n ih =>
    intro i w h
    have htail : parts.drop (i + 1) = (parts.drop i).tail := (List.tail_drop parts i).symm
    match hd : parts.drop i, h with
    | a :: b :: rest, hlen =>
      rw [hd] at htail
      have hlen2 : (parts.drop (i + 1)).length = n + 1 := by
        rw [htail]
        simp at hlen ⊢
        omega
      have hrec : ∀ w1, _ := fun w1 => ih (i + 1) w1 hlen2
      rw [htail] at hrec
      simp only [List.tail_cons] at hrec
      simp only [searchZoneNameLoop, firstResolving, run_bind, hd, labelSuffixes, List.map_cons]
      rcases searcher (Join (a :: b :: rest) ".".toList) w with ⟨o, w1⟩
      cases o with
      | ret r =>
        rcases r with ⟨zoneId, err⟩
        by_cases hz : zoneId = []
        · simp only [hz, ne_eq, not_true_eq_false, if_false]
          exact hrec w1
        · simp only [hz, ne_eq, not_false_eq_true, if_true, run_pure]
      | panic msg => rfl
      | fatal => rfl

/-- The zone search is the first-match rule over the candidate order. -/
theorem searchZoneName_eq_firstResolving {ω : Type} (searchZone : Str)
    (searcher : zoneIdSearcher ω) (w : ω) :
    searchZoneName searchZone searcher w =
      (match firstResolving searcher (candidates searchZone) w with
        | (Outcome.ret (some c), w1) => (Outcome.ret (c, none), w1)
        | (Outcome.ret none, w1) =>
          (Outcome.ret ([], some (if (Split (TrimSuffix searchZone ".".toList) '.').length < 2
            then errUndetermined searchZone else errNotFound searchZone)), w1)
        | (Outcome.panic msg, w1) => (Outcome.panic msg, w1)
        | (Outcome.fatal, w1) => (Outcome.fatal, w1)) := by
  unfold searchZoneName
  by_cases hlen : (Split (TrimSuffix searchZone ".".toList) '.').length < 2
  · rw [if_pos hlen]
    have hc : candidates searchZone = [] := by
      unfold candidates
      match hs : Split (TrimSuffix searchZone ".".toList) '.', hlen with
      | [], _ => rfl
      | [a], _ => rfl
    rw [hc]
    simp only [firstResolving, if_pos hlen, run_pure]
  · rw [if_neg hlen]
    have h := searchZoneNameLoop_firstResolving searchZone searcher
      (Split (TrimSuffix searchZone ".".toList) '.')
      ((Split (TrimSuffix searchZone ".".toList) '.').length - 1) 0 w
      (by simp only [List.drop_zero]; omega)
    rw [h]
    simp only [List.drop_zero, if_neg hlen]
    rfl

/-- Over a resolver without effects the first-match rule is `List.find?` with
the test "the identifier is not empty". -/
theorem firstResolving_pureSearcher {ω : Type} (r : Str → Str × GoError) :
    ∀ (cs : List Str) (w : ω),
      firstResolving (pureSearcher r) cs w
        = (Outcome.ret (cs.find? (fun c => (r c).1 != [])), w) := by
  intro cs
  induction cs with
  | nil => intro w; rfl
  | cons c cs ih =>
    intro w
    simp only [firstResolving, pureSearcher, run_bind, run_pure, List.find?_cons]
    by_cases hz : (r c).1 = []
    · simp only [hz, ne_eq, not_true_eq_false, if_false, bne_self_eq_false]
      exact ih w
    · have hb : ((r c).1 != []) = true := by simpa using hz
      simp only [hz, hb, ne_eq, not_false_eq_true, if_true, run_pure]

/-- When the resolver returns an empty identifier, with or without an error, for
every name of `pre` and a non-empty identifier for `c`, the first-match rule
over `pre ++ c :: rest` gives `c`. -/
theorem firstResolving_of_empty_before {ω : Type} (searcher : zoneIdSearcher ω)
    (c : Str) (rest : List Str)
    (hfound : ∀ w0 : ω, ∃ zoneId e w1, searcher c w0 = (Outcome.ret (zoneId, e), w1)
      ∧ zoneId ≠ []) :
    ∀ (pre : List Str) (w : ω),
      (∀ c0 ∈ pre, ∀ w0 : ω, ∃ e w1, searcher c0 w0 = (Outcome.ret ([], e), w1)) →
      ∃ w2, firstResolving searcher (pre ++ c :: rest) w = (Outcome.ret (some c), w2) := by
  intro pre
  induction pre with
  | nil =>
    intro w _
    obtain ⟨zoneId, e, w1, hs, hne⟩ := hfound w
    refine ⟨w1, ?_⟩
    simp only [List.nil_append, firstResolving, run_bind, hs, ne_eq, hne, not_false_eq_true,
      if_true, run_pure]
  | cons c0 pre ih =>
    intro w hpre
    obtain ⟨e, w1, hs⟩ := hpre c0 (List.mem_cons_self _ _) w
    obtain ⟨w2, h2⟩ := ih w1 (fun c1 hc1 => hpre c1 (List.mem_cons_of_mem _ hc1))
    refine ⟨w2, ?_⟩
    simp only [List.cons_append, firstResolving, run_bind, hs, ne_eq, not_true_eq_false,
      if_false]
    exact h2

/-- The name the first-match rule gives is a name of the list that the resolver
has answered with a non-empty identifier, after answering every name before it
with an empty one. -/
theorem firstResolving_some {ω : Type} (searcher : zoneIdSearcher ω) :
    ∀ (cs : List Str) (w w1 : ω) (c : Str),
      firstResolving searcher cs w = (Outcome.ret (some c), w1) →
      ∃ (pre rest : List Str) (w0 : ω) (zoneId : Str) (e : GoError),
        cs = pre ++ c :: rest
        ∧ firstResolving searcher pre w = (Outcome.ret none, w0)
        ∧ searcher c w0 = (Outcome.ret (zoneId, e), w1) ∧ zoneId ≠ [] := by
  intro cs
  induction cs with
  | nil =>
    intro w w1 c h
    simp only [firstResolving, run_pure, Prod.mk.injEq, Outcome.ret.injEq] at h
    exact absurd h.1 (by simp)
  | cons c0 cs ih =>
    intro w w1 c h
    rcases hs : searcher c0 w with ⟨o, w2⟩
    cases o with
    | ret a =>
      rcases a with ⟨zoneId, e⟩
      by_cases hz : zoneId = []
      · simp only [firstResolving, run_bind, hs, hz, ne_eq, not_true_eq_false, if_false] at h
        obtain ⟨pre, rest, w0, zoneId2, e2, h1, h2, h3, h4⟩ := ih w2 w1 c h
        refine ⟨c0 :: pre, rest, w0, zoneId2, e2, by rw [h1]; rfl, ?_, h3, h4⟩
        simp only [firstResolving, run_bind, hs, hz, ne_eq, not_true_eq_false, if_false]
        exact h2
      · simp only [firstResolving, run_bind, hs, ne_eq, hz, not_false_eq_true, if_true,
          run_pure, Prod.mk.injEq, Outcome.ret.injEq, Option.some.injEq] at h
        obtain ⟨hc, hw⟩ := h
        subst hc
        subst hw
        exact ⟨[], cs, w, zoneId, e, rfl, rfl, hs, hz⟩
    | panic msg =>
      simp only [firstResolving, run_bind, hs, Prod.mk.injEq] at h
      exact absurd h.1 (by simp)
    | fatal =>
      simp only [firstResolving, run_bind, hs, Prod.mk.injEq] at h
      exact absurd h.1 (by simp)

/-- C1. For every search input and every resolver, with or without effects,
`searchZoneName` is the first-match rule over the candidate order: the resolver
is asked for the candidates in order, each call in the world the previous one
left, and the search returns, with a nil error, the first candidate for which
the resolver returns a non-empty identifier, and fails when there is none.  For
a resolver without effects that is the first candidate of the list with a
non-empty identifier.  The candidate order starts with the whole input minus one
trailing dot (when that has at least two labels), goes on by dropping the
leading label, and no candidate has fewer than two labels.  So
`specific.example.com` is returned when it and `example.com` both resolve, and
`example.com` when only it resolves.  A name the search returns is a candidate
that the resolver has answered with a non-empty identifier, after answering
every candidate before it with an empty one. -/
theorem searchZoneName_first_resolving_candidate {ω : Type} (searchZone : Str)
    (searcher : zoneIdSearcher ω) (r : Str → Str × GoError) (w : ω) :
    searchZoneName searchZone searcher w =
        (match firstResolving searcher (candidates searchZone) w with
          | (Outcome.ret (some c), w1) => (Outcome.ret (c, none), w1)
          | (Outcome.ret none, w1) =>
            (Outcome.ret ([], some (if (Split (TrimSuffix searchZone ".".toList) '.').length < 2
              then errUndetermined searchZone else errNotFound searchZone)), w1)
          | (Outcome.panic msg, w1) => (Outcome.panic msg, w1)
          | (Outcome.fatal, w1) => (Outcome.fatal, w1))
    ∧ searchZoneName searchZone (pureSearcher r) w =
        (Outcome.ret
          (match (candidates searchZone).find? (fun c => (r c).1 != []) with
            | some c => (c, none)
            | none =>
              ([], some (if (Split (TrimSuffix searchZone ".".toList) '.').length < 2
                then errUndetermined searchZone else errNotFound searchZone))), w)
    ∧ (candidates searchZone).head? =
        (if 2 ≤ (Split (TrimSuffix searchZone ".".toList) '.').length then
          some (TrimSuffix searchZone ".".toList)
        else none)
    ∧ (candidates searchZone).all (fun c => decide (2 ≤ (Split c '.').length)) = true
    ∧ (∀ (z : Str) (w1 : ω), searchZoneName searchZone searcher w = (Outcome.ret (z, none), w1) →
        ∃ (pre rest : List Str) (w0 : ω) (zoneId : Str) (e : GoError),
          candidates searchZone = pre ++ z :: rest
          ∧ firstResolving searcher pre w = (Outcome.ret none, w0)
          ∧ searcher z w0 = (Outcome.ret (zoneId, e), w1) ∧ zoneId ≠ [])
    ∧ searchZoneName "specific.example.com".toList
        (pureSearcher (mockZoneIdSearcher
          [("specific.example.com".toList, "zone-specific".toList),
           ("example.com".toList, "zone-parent".toList)] [])) w
        = (Outcome.ret ("specific.example.com".toList, none), w)
    ∧ searchZoneName "deep.sub.example.com".toList
        (pureSearcher (mockZoneIdSearcher [("example.com".toList, "zone123".toList)] [])) w
        = (Outcome.ret ("example.com".toList, none), w) := by
  refine ⟨searchZoneName_eq_firstResolving searchZone searcher w, ?_,
    candidates_head searchZone, ?_, ?_, rfl, rfl⟩
  · rw [searchZoneName_eq_firstResolving, firstResolving_pureSearcher]
    cases (candidates searchZone).find? (fun c => (r c).1 != []) <;> rfl
  · rw [List.all_eq_true]
    intro c hc
    exact decide_eq_true (two_le_labels_of_mem_candidates searchZone c hc)
  · intro z w1 h
    rw [searchZoneName_eq_firstResolving] at h
    rcases hf : firstResolving searcher (candidates searchZone) w with ⟨o, w2⟩
    rw [hf] at h
    cases o with
    | ret found =>
      cases found with
      | some c =>
        simp only [Prod.mk.injEq, Outcome.ret.injEq] at h
        obtain ⟨⟨hc, _⟩, hw⟩ := h
        subst hc
        subst hw
        exact firstResolving_some searcher _ w w2 c hf
      | none =>
        simp only [Prod.mk.injEq, Outcome.ret.injEq] at h
        exact absurd h.1.2 (by simp)
    | panic msg =>
      simp only [Prod.mk.injEq] at h
      exact absurd h.1 (by simp)
    | fatal =>
      simp only [Prod.mk.injEq] at h
      exact absurd h.1 (by simp)

/-- Witness of C1: a resolver with effects, which counts its invocations and
knows `example.com` only.  The search for `sub.example.com` returns
`example.com` after two invocations, the first of them for `sub.example.com`. -/
theorem searchZoneName_first_resolving_candidate_witness :
    searchZoneName "sub.example.com".toList
        (fun name (calls : Nat) =>
          (Outcome.ret (if name = "example.com".toList then "zone123".toList else [], none),
            calls + 1)) 0
      = (Outcome.ret ("example.com".toList, none), 2)
    ∧ ∃ (pre rest : List Str) (w0 : Nat) (zoneId : Str) (e : GoError),
        candidates "sub.example.com".toList = pre ++ "example.com".toList :: rest
        ∧ firstResolving
            (fun name (calls : Nat) =>
              (Outcome.ret (if name = "example.com".toList then "zone123".toList else [], none),
                calls + 1)) pre 0 = (Outcome.ret none, w0)
        ∧ (fun name (calls : Nat) =>
              (Outcome.ret (if name = "example.com".toList then "zone123".toList else [], none),
                calls + 1)) "example.com".toList w0 = (Outcome.ret (zoneId, e), 2)
        ∧ zoneId ≠ [] :=
  ⟨(searchZoneName_first_resolving_candidate "sub.example.com".toList
      (fun name (calls : Nat) =>
        (Outcome.ret (if name = "example.com".toList then "zone123".toList else [], none),
          calls + 1)) (fun _ => ([], none)) 0).1.trans rfl,
   (searchZoneName_first_resolving_candidate "sub.example.com".toList
      (fun name (calls : Nat) =>
        (Outcome.ret (if name = "example.com".toList then "zone123".toList else [], none),
          calls + 1)) (fun _ => ([], none)) 0).2.2.2.2.1 "example.com".toList 2 rfl⟩

/-- C2. A resolver error never aborts `searchZoneName`.  Replacing the errors the
resolver returns by nil, its identifiers kept, changes nothing in what the
search returns (zone name, error, effects).  And for every candidate `c`: when
the resolver returns an empty identifier, with an error or without, for every
candidate before `c` and a non-empty identifier for `c`, the search returns `c`
with a nil error.  So in the test case where the resolver fails for
`api-error.example.com` and knows `example.com`, the search returns
`example.com` with a nil error. -/
theorem searchZoneName_withoutErrors {ω : Type} (searchZone : Str)
    (searcher : zoneIdSearcher ω) (w : ω) :
    searchZoneName searchZone (withoutErrors searcher) w = searchZoneName searchZone searcher w
    ∧ (∀ (pre : List Str) (c : Str) (rest : List Str),
        candidates searchZone = pre ++ c :: rest →
        (∀ c0 ∈ pre, ∀ w0 : ω, ∃ (e : GoError) (w1 : ω),
          searcher c0 w0 = (Outcome.ret ([], e), w1)) →
        (∀ w0 : ω, ∃ (zoneId : Str) (e : GoError) (w1 : ω),
          searcher c w0 = (Outcome.ret (zoneId, e), w1) ∧ zoneId ≠ []) →
        ∃ w2, searchZoneName searchZone searcher w = (Outcome.ret (c, none), w2))
    ∧ searchZoneName "api-error.example.com".toList
        (pureSearcher (mockZoneIdSearcher [("example.com".toList, "zone456".toList)]
          [("api-error.example.com".toList, "simulated API error".toList)])) w
        = (Outcome.ret ("example.com".toList, none), w) := by
  refine ⟨?_, ?_, rfl⟩
  · unfold searchZoneName
    split
    · rfl
    · exact searchZoneNameLoop_withoutErrors searchZone searcher _ _ 0 w
  · intro pre c rest hcands hpre hfound
    obtain ⟨w2, h2⟩ := firstResolving_of_empty_before searcher c rest hfound pre w hpre
    refine ⟨w2, ?_⟩
    rw [searchZoneName_eq_firstResolving, hcands, h2]

/-- Witness of C2: below `example.com`, which the resolver knows, one level fails
with a more-than-one-match error and the next with an API failure; the search
returns `example.com` with a nil error. -/
theorem searchZoneName_withoutErrors_witness :
    ∃ w2, searchZoneName "multi.api-error.example.com".toList
      (pureSearcher (mockZoneIdSearcher [("example.com".toList, "zone456".toList)]
        [("multi.api-error.example.com".toList,
            "unexpected number of zones (2) found for name".toList),
         ("api-error.example.com".toList, "simulated API error".toList)])) ()
      = (Outcome.ret ("example.com".toList, none), w2) :=
  (searchZoneName_withoutErrors "multi.api-error.example.com".toList
    (pureSearcher (mockZoneIdSearcher [("example.com".toList, "zone456".toList)]
      [("multi.api-error.example.com".toList,
          "unexpected number of zones (2) found for name".toList),
       ("api-error.example.com".toList, "simulated API error".toList)])) ()).2.1
    ["multi.api-error.example.com".toList, "api-error.example.com".toList]
    "example.com".toList [] (by decide)
    (fun c0 hc0 w0 =>
      ⟨(mockZoneIdSearcher [("example.com".toList, "zone456".toList)]
        [("multi.api-error.example.com".toList,
            "unexpected number of zones (2) found for name".toList),
         ("api-error.example.com".toList, "simulated API error".toList)] c0).2, w0, by
        have hall : ∀ c1 ∈ ["multi.api-error.example.com".toList,
              "api-error.example.com".toList],
            (mockZoneIdSearcher [("example.com".toList, "zone456".toList)]
              [("multi.api-error.example.com".toList,
                  "unexpected number of zones (2) found for name".toList),
               ("api-error.example.com".toList, "simulated API error".toList)] c1).1 = [] := by
          decide
        have h1 := hall c0 hc0
        show (Outcome.ret _, w0) = _
        rw [← h1]⟩)
    (fun w0 => ⟨"zone456".toList, none, w0, rfl, by decide⟩)

/-- C3. For an input with at least two labels and a resolver that returns an
empty identifier for every candidate, with or without an error, `searchZoneName`
returns the empty name and the error `unable to find a registered Hetzner DNS
zone for domain: <input> or its parents`, built from the original input and not
from anything the resolver returned. -/
theorem searchZoneName_not_found {ω : Type} (searchZone : Str)
    (searcher : zoneIdSearcher ω) (w : ω)
    (hlabels : 2 ≤ (Split (TrimSuffix searchZone ".".toList) '.').length)
    (hempty : ∀ c ∈ candidates searchZone, ∀ w0 : ω,
      ∃ e w1, searcher c w0 = (Outcome.ret ([], e), w1)) :
    ∃ w2, searchZoneName searchZone searcher w =
      (Outcome.ret ([], some ("unable to find a registered Hetzner DNS zone for domain: ".toList
        ++ searchZone ++ " or its parents".toList)), w2) := by
  unfold searchZoneName
  rw [if_neg (by omega)]
  exact searchZoneNameLoop_all_empty searchZone searcher _ _ 0 w
    (by simp only [List.drop_zero]; omega)
    (by simpa only [List.drop_zero] using hempty)

/-- Witness of C3: the test case "Persistent error during search". -/
theorem searchZoneName_not_found_witness :
    ∃ w2, searchZoneName "error.fail.com".toList
      (pureSearcher (mockZoneIdSearcher []
        [("error.fail.com".toList, "simulated API error 1".toList),
         ("fail.com".toList, "simulated API error 2".toList)])) () =
      (Outcome.ret ([], some ("unable to find a registered Hetzner DNS zone for domain: ".toList
        ++ "error.fail.com".toList ++ " or its parents".toList)), w2) :=
  searchZoneName_not_found "error.fail.com".toList _ () (by decide)
    (fun c hc w0 =>
      ⟨(mockZoneIdSearcher []
        [("error.fail.com".toList, "simulated API error 1".toList),
         ("fail.com".toList, "simulated API error 2".toList)] c).2, w0, by
        have hall : ∀ c ∈ candidates "error.fail.com".toList,
            (mockZoneIdSearcher []
              [("error.fail.com".toList, "simulated API error 1".toList),
               ("fail.com".toList, "simulated API error 2".toList)] c).1 = [] := by decide
        have h1 := hall c hc
        show (Outcome.ret _, w0) = _
        rw [← h1]⟩)

/-- C4. For an input that, after one trailing dot is stripped, has fewer than
two labels, `searchZoneName` fails at once with the error `unable to determine
potential zones from searchZone: <input>` and an empty name; the resolver,
whatever its effects, is not invoked: the world is returned as it was. -/
theorem searchZoneName_too_few_labels {ω : Type} (searchZone : Str)
    (searcher : zoneIdSearcher ω) (w : ω)
    (hlabels : (Split (TrimSuffix searchZone ".".toList) '.').length < 2) :
    searchZoneName searchZone searcher w =
      (Outcome.ret ([], some ("unable to determine potential zones from searchZone: ".toList
        ++ searchZone)), w) := by
  unfold searchZoneName
  rw [if_pos hlabels]
  rfl

/-- Witness of C4: the test case "Invalid input - less than 2 parts", run with a
resolver that counts its invocations. -/
theorem searchZoneName_too_few_labels_witness :
    searchZoneName "com".toList
      (fun _ (calls : Nat) => (Outcome.ret ("zone123".toList, none), calls + 1)) 0 =
      (Outcome.ret ([], some ("unable to determine potential zones from searchZone: ".toList
        ++ "com".toList)), 0) :=
  searchZoneName_too_few_labels "com".toList _ 0 (by decide)

/-! ## The zone names the search can return -/

/-- A zone name that the loop returns with a nil error is the join of the labels
from one of the indices the loop visits. -/
theorem searchZoneNameLoop_found {ω : Type} (searchZone : Str) (searcher : zoneIdSearcher ω)
    (parts : List Str) :
    ∀ (remaining i : Nat) (w w1 : ω) (z : Str),
      searchZoneNameLoop searchZone searcher parts remaining i w = (Outcome.ret (z, none), w1) →
      ∃ j, i ≤ j ∧ j < i + remaining ∧ z = Join (parts.drop j) ".".toList := by
  intro remaining
  induction remaining with
  | zero =>
    intro i w w1 z h
    simp only [searchZoneNameLoop, run_pure, Prod.mk.injEq, Outcome.ret.injEq] at h
    exact absurd h.1.2 (by simp)
  | succ n ih =>
    intro i w w1 z h
    rcases hs : searcher (Join (parts.drop i) ".".toList) w with ⟨o, w2⟩
    cases o with
    | ret a =>
      rcases a with ⟨zoneId, err⟩
      by_cases hid : zoneId = []
      · simp only [searchZoneNameLoop, run_bind, hs, hid, ne_eq, not_true_eq_false,
          if_false] at h
        obtain ⟨j, h1, h2, h3⟩ := ih (i + 1) w2 w1 z h
        exact ⟨j, by omega, by omega, h3⟩
      · simp only [searchZoneNameLoop, run_bind, hs, ne_eq, hid, not_false_eq_true, if_true,
          run_pure, Prod.mk.injEq, Outcome.ret.injEq] at h
        exact ⟨i, le_refl _, by omega, h.1.1.symm⟩
    | panic msg =>
      simp only [searchZoneNameLoop, run_bind, hs, Prod.mk.injEq] at h
      exact absurd h.1 (by simp)
    | fatal =>
      simp only [searchZoneNameLoop, run_bind, hs, Prod.mk.injEq] at h
      exact absurd h.1 (by simp)

/-- A zone name that `searchZoneName` returns with a nil error is the join of
the labels of the normalised input from some index on, at least two of them. -/
theorem searchZoneName_found {ω : Type} (searchZone : Str) (searcher : zoneIdSearcher ω)
    (w w1 : ω) (z : Str)
    (h : searchZoneName searchZone searcher w = (Outcome.ret (z, none), w1)) :
    ∃ i, i + 2 ≤ (Split (TrimSuffix searchZone ".".toList) '.').length
      ∧ z = Join ((Split (TrimSuffix searchZone ".".toList) '.').drop i) ".".toList := by
  simp only [searchZoneName] at h
  by_cases hlen : (Split (TrimSuffix searchZone ".".toList) '.').length < 2
  · rw [if_pos hlen] at h
    simp only [run_pure, Prod.mk.injEq, Outcome.ret.injEq] at h
    exact absurd h.1.2 (by simp)
  · rw [if_neg hlen] at h
    obtain ⟨j, _, h2, h3⟩ := searchZoneNameLoop_found searchZone searcher _ _ 0 w w1 z h
    exact ⟨j, by omega, h3⟩

end Internal

namespace Main

/-! ## `recordName` -/

/-- C5. For an FQDN that belongs to the zone, both compared after one trailing
dot is stripped from each, `recordName` returns the name relative to the zone:
`@` when the FQDN equals the zone name, and `p` when the FQDN is
`p + "." + zone` with `p` non-empty; the three examples of the doc comment of
`recordName` evaluate to `_acme-challenge.www`, `_acme-challenge` and `@`. -/
theorem recordName_of_member (fqdn domain p : Str) :
    (TrimSuffix fqdn ".".toList = TrimSuffix domain ".".toList →
      recordName fqdn domain = "@".toList)
    ∧ (p ≠ [] → TrimSuffix fqdn ".".toList = p ++ ".".toList ++ TrimSuffix domain ".".toList →
      recordName fqdn domain = p)
    ∧ recordName "_acme-challenge.www.example.com.".toList "example.com.".toList
        = "_acme-challenge.www".toList
    ∧ recordName "_acme-challenge.example.com.".toList "example.com.".toList
        = "_acme-challenge".toList
    ∧ recordName "example.com.".toList "example.com.".toList = "@".toList := by
  refine ⟨?_, ?_, by decide, by decide, by decide⟩
  · intro h
    unfold recordName
    simp only [h, if_true]
  · intro hp h
    unfold recordName
    have hne : TrimSuffix fqdn ".".toList ≠ TrimSuffix domain ".".toList := by
      intro e
      have hl := congrArg List.length (h.symm.trans e)
      have hp2 : 0 < p.length := List.length_pos.2 hp
      simp at hl
      omega
    have hform : TrimSuffix fqdn ".".toList = p ++ (".".toList ++ TrimSuffix domain ".".toList) := by
      rw [h, List.append_assoc]
    simp only [if_neg hne]
    rw [if_pos ((HasSuffix_iff _ _).2 ⟨p, hform.symm⟩), hform, TrimSuffix_append, if_neg hp]

/-- Witness of C5: the apex and the sub-domain case at the inputs of the doc
comment of `recordName`. -/
theorem recordName_of_member_witness :
    recordName "example.com.".toList "example.com".toList = "@".toList
    ∧ recordName "_acme-challenge.www.example.com.".toList "example.com.".toList
        = "_acme-challenge.www".toList :=
  ⟨(recordName_of_member "example.com.".toList "example.com".toList []).1 (by decide),
   (recordName_of_member "_acme-challenge.www.example.com.".toList "example.com.".toList
      "_acme-challenge.www".toList).2.1 (by decide) (by decide)⟩

/-- C6. `recordName` returns the empty string exactly when, after one trailing
dot is stripped from each input, the FQDN is not the zone name and either does
not end with `"." + zone name` or is exactly `"." + zone name`; so `other.org.`
against `example.com.` and `notexample.com` against `example.com` give the
empty string. -/
theorem recordName_eq_empty_iff (fqdn domain : Str) :
    (recordName fqdn domain = [] ↔
      TrimSuffix fqdn ".".toList ≠ TrimSuffix domain ".".toList
      ∧ (¬ (".".toList ++ TrimSuffix domain ".".toList) <:+ TrimSuffix fqdn ".".toList
          ∨ TrimSuffix fqdn ".".toList = ".".toList ++ TrimSuffix domain ".".toList))
    ∧ recordName "other.org.".toList "example.com.".toList = []
    ∧ recordName "notexample.com".toList "example.com".toList = [] := by
  refine ⟨?_, by decide, by decide⟩
  unfold recordName
  by_cases heq : TrimSuffix fqdn ".".toList = TrimSuffix domain ".".toList
  · simp only [if_pos heq]
    constructor
    · intro h
      exact absurd h (by decide)
    · intro h
      exact absurd heq h.1
  · simp only [if_neg heq]
    by_cases hs : (".".toList ++ TrimSuffix domain ".".toList) <:+ TrimSuffix fqdn ".".toList
    · rw [if_pos ((HasSuffix_iff _ _).2 hs)]
      obtain ⟨q, hq⟩ := hs
      rw [← hq, TrimSuffix_append]
      constructor
      · intro h
        refine ⟨fun e => heq (hq ▸ e), Or.inr ?_⟩
        have hq0 : q = [] := by
          by_cases hq0 : q = []
          · exact hq0
          · rw [if_neg hq0] at h
            exact absurd h hq0
        rw [hq0]
        rfl
      · rintro ⟨_, h | h⟩
        · exact absurd ⟨q, rfl⟩ h
        · have hq0 : q = [] := by
            have hl := congrArg List.length h
            simp at hl
            exact hl
          simp [hq0]
    · rw [if_neg (fun h => hs ((HasSuffix_iff _ _).1 h))]
      exact ⟨fun _ => ⟨heq, Or.inl hs⟩, fun _ => rfl⟩

/-! ## `searchZoneId` -/

/-- When the directory answers, the answer parses, reports exactly one match and
lists at least one zone, `searchZoneId` returns the identifier of the first
listed zone with a nil error. -/
theorem searchZoneId_one_match {σ : Type} (env : Env σ) (config : Internal.Config)
    (w w1 : World σ) (body : Str) (zones : Internal.ZoneResponse) (zone : Internal.Zone)
    (rest : List Internal.Zone)
    (hcall : callDnsApi env (config.ApiUrl ++ "/zones?name=".toList ++ config.ZoneName)
      "GET".toList none config w = (Outcome.ret (body, none), w1))
    (hparse : env.unmarshalZones body = (zones, none))
    (hone : zones.Meta.Pagination.TotalEntries = 1)
    (hzones : zones.Zones = zone :: rest) :
    searchZoneId env config w = (Outcome.ret (zone.Id, none), w1) := by
  simp only [searchZoneId, run_bind, hcall, hparse, hone, hzones]
  rfl

/-- C7, at the failing input. A directory answer with status 200 that parses,
reports `total_entries = 1` and lists no zone
(`countOnlyJSON`) makes `searchZoneId` panic on `zones.Zones[0]`: it returns
neither an identifier nor an error. -/
theorem searchZoneId_panics_on_empty_zone_list :
    (searchZoneId
      (testEnv (fun _ =>
        Except.ok { StatusCode := 200, Status := "200 OK".toList, Body := countOnlyJSON }))
      { ApiKey := "token".toList, ZoneName := "example.com".toList,
        ApiUrl := "https://dns.hetzner.com/api/v1".toList }
      { state := (), calls := [] }).1
    = Outcome.panic "runtime error: index out of range [0] with length 0".toList := by
  rfl

/-! ## The zone search of `main.go` and the one of package `internal` -/

theorem searchZoneNameLoop_eq_internal {σ : Type} (env : Env σ) (config : Internal.Config)
    (searchZone : Str) (parts : List Str) :
    ∀ (remaining i : Nat) (local_ : Internal.Config),
      local_.ApiKey = config.ApiKey → local_.ApiUrl = config.ApiUrl →
      searchZoneNameLoop env searchZone parts remaining i local_ =
        Internal.searchZoneNameLoop searchZone (zoneIdResolver env config) parts remaining i := by
  intro remaining
  induction remaining with
  | zero => intro i local_ _ _; rfl
  | succ n ih =>
    intro i local_ hkey hurl
    have hcfg : ({ local_ with ZoneName := Join (parts.drop i) ".".toList } : Internal.Config)
        = { config with ZoneName := Join (parts.drop i) ".".toList } := by
      cases local_
      cases config
      simp only at hkey hurl
      simp [hkey, hurl]
    funext w
    simp only [searchZoneNameLoop, Internal.searchZoneNameLoop, zoneIdResolver, run_bind, hcfg]
    rcases searchZoneId env { config with ZoneName := Join (parts.drop i) ".".toList } w
      with ⟨o, w1⟩
    cases o with
    | ret a =>
      simp only
      split
      · rfl
      · have := ih (i + 1) { config with ZoneName := Join (parts.drop i) ".".toList } rfl rfl
        rw [this]
    | panic msg => rfl
    | fatal => rfl

/-- C10. The zone search of `main.go` is the zone search of package `internal`
run with the resolver `z ↦ searchZoneId(config with ZoneName = z)`: for every
outside, configuration and search input the two are the same call, with the
same zone name, the same error and the same effects.  The configuration is
passed by value, so the caller's copy is not changed. -/
theorem searchZoneName_eq_internal {σ : Type} (env : Env σ) (config : Internal.Config)
    (searchZone : Str) :
    searchZoneName env config searchZone =
      Internal.searchZoneName searchZone (zoneIdResolver env config) := by
  simp only [searchZoneName, Internal.searchZoneName]
  by_cases h : (Split (TrimSuffix searchZone ".".toList) '.').length < 2
  · rw [if_pos h, if_pos h]
  · rw [if_neg h, if_neg h]
    exact searchZoneNameLoop_eq_internal env config searchZone _ _ 0 config rfl rfl

/-! ## `CleanUp` -/

/-- Every call of `callDnsApi` enters itself at the end of `calls`, however it
ends. -/
theorem callDnsApi_calls {σ : Type} (env : Env σ) (url method : Str) (body : Option Str)
    (config : Internal.Config) (w : World σ) :
    (callDnsApi env url method body config w).2.calls =
      w.calls ++ [{ url := url, method := method, body := body, config := config }] := by
  unfold callDnsApi
  cases env.newRequestErr method url with
  | some err => rfl
  | none =>
    simp only
    rcases env.clientDo _ w.state with ⟨r, st⟩
    cases r with
    | error err => rfl
    | ok resp =>
      simp only
      cases resp.closeErr with
      | some e => rfl
      | none =>
        simp only
        split <;> rfl

/-- The backward scan of `CleanUp` over the first `n` records finds the last of
them, in list order, whose name matches. -/
theorem cleanUpLoop_take {σ : Type} (env : Env σ) (records : List Internal.Record)
    (name : Str) :
    ∀ n, n ≤ records.length →
      cleanUpLoop env records name n =
        match ((records.take n).filter (fun r => env.EqualFold r.Name name)).getLast? with
        | some r => r.Id
        | none => [] := by
  intro n
  induction n with
  | zero => intro _; rfl
  | succ n ih =>
    intro hn
    have hlt : n < records.length := by omega
    have hget : records.getD n default = records[n] := by
      rw [List.getD_eq_getElem _ _ hlt]
    have htake : records.take (n + 1) = records.take n ++ [records[n]] := by
      rw [List.take_succ, List.getElem?_eq_getElem hlt]
      rfl
    rw [cleanUpLoop, hget, htake, List.filter_append]
    by_cases hm : env.EqualFold records[n].Name name = true
    · rw [if_pos hm]
      have : List.filter (fun r => env.EqualFold r.Name name) [records[n]] = [records[n]] := by
        simp [List.filter, hm]
      rw [this, List.getLast?_concat]
    · rw [if_neg hm, ih (by omega)]
      have : List.filter (fun r => env.EqualFold r.Name name) [records[n]] = [] := by
        simp [List.filter, hm]
      rw [this, List.append_nil]

/-- C9. In `CleanUp`, once the configuration, the zone identifier and the list
of the zone's records have been obtained, the call that follows is a `DELETE`
on `ApiUrl + "/records/" + id`, where `id` is the identifier of the last record
in list order whose name equals the derived record name under
`strings.EqualFold`, and the empty string when no record's name matches: the
delete call is issued in both cases, whatever the list. -/
theorem CleanUp_deletes_last_match {σ : Type} (env : Env σ) (ch : ChallengeRequest)
    (w w1 w2 w3 : World σ) (config : Internal.Config) (zoneId body : Str)
    (records : Internal.RecordResponse)
    (hconfig : clientConfig env ch w = (Outcome.ret (config, none), w1))
    (hzone : searchZoneId env config w1 = (Outcome.ret (zoneId, none), w2))
    (hlist : callDnsApi env (config.ApiUrl ++ "/records?zone_id=".toList ++ zoneId)
      "GET".toList none config w2 = (Outcome.ret (body, none), w3))
    (hparse : env.unmarshalRecords body = (records, none)) :
    (CleanUp env ch w).2.calls = w3.calls ++
        [{ url := config.ApiUrl ++ "/records/".toList ++
              (match (records.Records.filter (fun r =>
                  env.EqualFold r.Name (recordName ch.ResolvedFQDN config.ZoneName))).getLast? with
                | some r => r.Id
                | none => []),
           method := "DELETE".toList, body := none, config := config }]
    ∧ ((∀ r ∈ records.Records,
          env.EqualFold r.Name (recordName ch.ResolvedFQDN config.ZoneName) = false) →
        (CleanUp env ch w).2.calls = w3.calls ++
          [{ url := config.ApiUrl ++ "/records/".toList,
             method := "DELETE".toList, body := none, config := config }]) := by
  have hloop := cleanUpLoop_take env records.Records
    (recordName ch.ResolvedFQDN config.ZoneName) records.Records.length (Nat.le_refl _)
  rw [List.take_length] at hloop
  have hcalls : (CleanUp env ch w).2.calls = w3.calls ++
      [{ url := config.ApiUrl ++ "/records/".toList ++
            cleanUpLoop env records.Records (recordName ch.ResolvedFQDN config.ZoneName)
              records.Records.length,
         method := "DELETE".toList, body := none, config := config }] := by
    simp only [CleanUp, run_bind, hconfig, hzone, hlist, hparse]
    rw [← callDnsApi_calls env _ "DELETE".toList none config w3]
    rcases callDnsApi env (config.ApiUrl ++ "/records/".toList ++
      cleanUpLoop env records.Records (recordName ch.ResolvedFQDN config.ZoneName)
        records.Records.length) "DELETE".toList none config w3 with ⟨o, w4⟩
    cases o <;> rfl
  refine ⟨by rw [hcalls, hloop], ?_⟩
  intro hnone
  have hfilter : records.Records.filter (fun r =>
      env.EqualFold r.Name (recordName ch.ResolvedFQDN config.ZoneName)) = [] := by
    rw [List.filter_eq_nil_iff]
    intro r hr
    rw [hnone r hr]
    exact Bool.false_ne_true
  rw [hcalls, hloop, hfilter]
  simp

/-- Witness of C9: the zone `example.com` of `testDirectory` has three records,
of which the first two match `_acme-challenge` when case is ignored; the
identifier in the delete call is that of the second. -/
theorem CleanUp_deletes_last_match_witness :
    (CleanUp (testEnv testDirectory) (testChallenge configJSON)
      { state := (), calls := [] }).2.calls.getLast?
    = some { url := "https://dns.hetzner.com/api/v1/records/r2".toList,
             method := "DELETE".toList, body := none, config := testConfig } := by
  have h := (CleanUp_deletes_last_match (testEnv testDirectory) (testChallenge configJSON)
    { state := (), calls := [] } _ _ _ _ _ _ _ rfl rfl rfl rfl).1
  rw [h, List.getLast?_concat]
  rfl

/-! ## `Present` -/

/-- The world after `searchZoneId` is the world after its one call of
`callDnsApi`. -/
theorem searchZoneId_world {σ : Type} (env : Env σ) (config : Internal.Config) (w : World σ) :
    (searchZoneId env config w).2 =
      (callDnsApi env (config.ApiUrl ++ "/zones?name=".toList ++ config.ZoneName)
        "GET".toList none config w).2 := by
  rcases hc : callDnsApi env (config.ApiUrl ++ "/zones?name=".toList ++ config.ZoneName)
    "GET".toList none config w with ⟨o, w1⟩
  cases o with
  | ret a =>
    rcases a with ⟨zoneRecords, err⟩
    cases err with
    | some e => simp only [searchZoneId, run_bind, hc]; rfl
    | none =>
      rcases hu : env.unmarshalZones zoneRecords with ⟨zones, readErr⟩
      cases readErr with
      | some e => simp only [searchZoneId, run_bind, hc, hu]; rfl
      | none =>
        simp only [searchZoneId, run_bind, hc, hu]
        split
        · rfl
        · split
          · rfl
          · cases zones.Zones <;> rfl
  | panic msg => simp only [searchZoneId, run_bind, hc]
  | fatal => simp only [searchZoneId, run_bind, hc]

/-- The one call that `searchZoneId` issues is a `GET`. -/
theorem searchZoneId_calls {σ : Type} (env : Env σ) (config : Internal.Config) (w : World σ) :
    (searchZoneId env config w).2.calls =
      w.calls ++ [{ url := config.ApiUrl ++ "/zones?name=".toList ++ config.ZoneName,
                    method := "GET".toList, body := none, config := config }] := by
  rw [searchZoneId_world, callDnsApi_calls]

/-- Every identifier that `searchZoneId` returns together with an error is the
empty string. -/
theorem searchZoneId_error_id {σ : Type} (env : Env σ) (config : Internal.Config)
    (w w1 : World σ) (zoneId e : Str)
    (h : searchZoneId env config w = (Outcome.ret (zoneId, some e), w1)) : zoneId = [] := by
  rcases hc : callDnsApi env (config.ApiUrl ++ "/zones?name=".toList ++ config.ZoneName)
    "GET".toList none config w with ⟨o, w2⟩
  cases o with
  | ret a =>
    rcases a with ⟨zoneRecords, err⟩
    cases err with
    | some e2 =>
      simp only [searchZoneId, run_bind, hc, run_pure, Prod.mk.injEq, Outcome.ret.injEq] at h
      exact h.1.1.symm
    | none =>
      rcases hu : env.unmarshalZones zoneRecords with ⟨zones, readErr⟩
      cases readErr with
      | some e2 =>
        simp only [searchZoneId, run_bind, hc, hu, run_pure, Prod.mk.injEq,
          Outcome.ret.injEq] at h
        exact h.1.1.symm
      | none =>
        simp only [searchZoneId, run_bind, hc, hu] at h
        split at h
        · simp only [run_pure, Prod.mk.injEq, Outcome.ret.injEq] at h
          exact h.1.1.symm
        · split at h
          · simp only [run_pure, Prod.mk.injEq, Outcome.ret.injEq] at h
            exact h.1.1.symm
          · cases hz : zones.Zones with
            | cons zone rest =>
              simp only [hz, run_pure, Prod.mk.injEq, Outcome.ret.injEq] at h
              exact absurd h.1.2 (by simp)
            | nil =>
              simp only [hz, Prod.mk.injEq] at h
              exact absurd h.1 (by simp)
  | panic msg =>
    simp only [searchZoneId, run_bind, hc, Prod.mk.injEq] at h
    exact absurd h.1 (by simp)
  | fatal =>
    simp only [searchZoneId, run_bind, hc, Prod.mk.injEq] at h
    exact absurd h.1 (by simp)

/-- The loop of the zone search only adds `GET` calls to the calls made so far. -/
theorem searchZoneNameLoop_calls {σ : Type} (env : Env σ) (searchZone : Str)
    (parts : List Str) :
    ∀ (remaining i : Nat) (config : Internal.Config) (w : World σ),
      ∃ added, (searchZoneNameLoop env searchZone parts remaining i config w).2.calls
          = w.calls ++ added
        ∧ ∀ c ∈ added, c.method = "GET".toList := by
  intro remaining
  induction remaining with
  | zero =>
    intro i config w
    exact ⟨[], by simp [searchZoneNameLoop], by simp⟩
  | succ n ih =>
    intro i config w
    obtain ⟨call, hz, hget⟩ : ∃ call : ApiCall,
        (searchZoneId env { config with ZoneName := Join (parts.drop i) ".".toList } w).2.calls
          = w.calls ++ [call] ∧ call.method = "GET".toList :=
      ⟨_, searchZoneId_calls env _ w, rfl⟩
    rcases hs : searchZoneId env { config with ZoneName := Join (parts.drop i) ".".toList } w
      with ⟨o, w1⟩
    rw [hs] at hz
    cases o with
    | ret a =>
      rcases a with ⟨zoneId, err⟩
      by_cases hid : zoneId = []
      · obtain ⟨added, h1, h2⟩ := ih (i + 1)
          { config with ZoneName := Join (parts.drop i) ".".toList } w1
        refine ⟨call :: added, ?_, ?_⟩
        · simp only [searchZoneNameLoop, run_bind, hs, hid, ne_eq, not_true_eq_false, if_false]
          rw [h1, hz]
          simp
        · intro c hc
          rcases List.mem_cons.1 hc with hc | hc
          · rw [hc]
            exact hget
          · exact h2 c hc
      · refine ⟨[call], ?_, ?_⟩
        · simp only [searchZoneNameLoop, run_bind, hs, ne_eq, hid, not_false_eq_true, if_true,
            run_pure]
          exact hz
        · intro c hc
          rw [List.mem_singleton.1 hc]
          exact hget
    | panic msg =>
      refine ⟨[call], ?_, ?_⟩
      · simp only [searchZoneNameLoop, run_bind, hs]
        exact hz
      · intro c hc
        rw [List.mem_singleton.1 hc]
        exact hget
    | fatal =>
      refine ⟨[call], ?_, ?_⟩
      · simp only [searchZoneNameLoop, run_bind, hs]
        exact hz
      · intro c hc
        rw [List.mem_singleton.1 hc]
        exact hget

/-- The zone search of `main.go` only adds `GET` calls to the calls made so far. -/
theorem searchZoneName_calls {σ : Type} (env : Env σ) (config : Internal.Config)
    (searchZone : Str) (w : World σ) :
    ∃ added, (searchZoneName env config searchZone w).2.calls = w.calls ++ added
      ∧ ∀ c ∈ added, c.method = "GET".toList := by
  simp only [searchZoneName]
  by_cases h : (Split (TrimSuffix searchZone ".".toList) '.').length < 2
  · rw [if_pos h]
    exact ⟨[], by simp, by simp⟩
  · rw [if_neg h]
    exact searchZoneNameLoop_calls env searchZone _ _ 0 config w

/-- When `clientConfig` returns an error, `Present` returns it, wrapped, and does
nothing else. -/
theorem Present_of_clientConfig_error {σ : Type} (env : Env σ) (ch : ChallengeRequest)
    (w w1 : World σ) (config : Internal.Config) (e : Str)
    (hconfig : clientConfig env ch w = (Outcome.ret (config, some e), w1)) :
    Present env ch w =
      (Outcome.ret (some ("unable to get secret `".toList ++ ch.ResourceNamespace
        ++ "`; ".toList ++ e)), w1) := by
  simp only [Present, run_bind, hconfig, run_pure]

/-- When the zone name is not configured and the zone search returns an error,
`clientConfig` returns that error, wrapped, in the world the search left. -/
theorem clientConfig_of_search_error {σ : Type} (env : Env σ) (ch : ChallengeRequest)
    (w w1 : World σ) (cfg : hetznerDNSProviderConfig) (secData : Str → Option Str) (st : σ)
    (apiKey found e : Str)
    (hload : loadConfig env ch.Config = (cfg, none))
    (hzone : cfg.ZoneName = [])
    (hsecret : env.getSecret ch.ResourceNamespace cfg.SecretRef w.state = (Except.ok secData, st))
    (hkey : secData "api-key".toList = some apiKey)
    (hsearch : searchZoneName env { ApiKey := apiKey, ZoneName := [], ApiUrl := cfg.ApiUrl }
        (if ¬ HasSuffix ch.ResolvedZone ".".toList then ch.ResolvedZone ++ ".".toList
          else ch.ResolvedZone)
        { state := st, calls := w.calls } = (Outcome.ret (found, some e), w1)) :
    clientConfig env ch w =
      (Outcome.ret ({ ApiKey := apiKey, ZoneName := [], ApiUrl := cfg.ApiUrl },
        some ("error searching for zone for ".toList
          ++ (if ¬ HasSuffix ch.ResolvedZone ".".toList then ch.ResolvedZone ++ ".".toList
              else ch.ResolvedZone)
          ++ ": ".toList ++ e)), w1) := by
  simp only [clientConfig, run_bind, hload, getSecret, hsecret, stringFromSecretData, hkey,
    hzone, if_true, hsearch, run_pure]

/-- `callDnsApi` returns or ends the process; it does not panic. -/
theorem callDnsApi_no_panic {σ : Type} (env : Env σ) (url method : Str) (body : Option Str)
    (config : Internal.Config) (w : World σ) (msg : Str) :
    (callDnsApi env url method body config w).1 ≠ Outcome.panic msg := by
  unfold callDnsApi
  cases env.newRequestErr method url with
  | some e => simp
  | none =>
    simp only
    rcases env.clientDo _ w.state with ⟨r, st⟩
    cases r with
    | error e => simp
    | ok resp =>
      simp only
      cases resp.closeErr with
      | some e => simp
      | none =>
        simp only
        split <;> simp

/-- Once `clientConfig` has returned a configuration, `Present` issues the
`POST` on `ApiUrl + "/records"` with the identifier that `searchZoneId` returned,
whatever error came with it, and ends as that call ends: it returns nil when the
call returns, with or without an error, and the process is ended when the
`klog.Fatal` of `callDnsApi` ends it. -/
theorem Present_posts_after_config {σ : Type} (env : Env σ) (ch : ChallengeRequest)
    (w w1 w2 : World σ) (config : Internal.Config) (zoneId : Str) (err : GoError)
    (hconfig : clientConfig env ch w = (Outcome.ret (config, none), w1))
    (hid : searchZoneId env config w1 = (Outcome.ret (zoneId, err), w2)) :
    (Present env ch w).2.calls = w2.calls ++
        [{ url := config.ApiUrl ++ "/records".toList, method := "POST".toList,
           body := some (txtRecordJson env ch.Key
             (recordName ch.ResolvedFQDN config.ZoneName) zoneId),
           config := config }]
    ∧ (∀ (r : Str × GoError) (w3 : World σ),
        callDnsApi env (config.ApiUrl ++ "/records".toList) "POST".toList
          (some (txtRecordJson env ch.Key (recordName ch.ResolvedFQDN config.ZoneName) zoneId))
          config w2 = (Outcome.ret r, w3) →
        Present env ch w = (Outcome.ret none, w3))
    ∧ (∀ (w3 : World σ),
        callDnsApi env (config.ApiUrl ++ "/records".toList) "POST".toList
          (some (txtRecordJson env ch.Key (recordName ch.ResolvedFQDN config.ZoneName) zoneId))
          config w2 = (Outcome.fatal, w3) →
        Present env ch w = (Outcome.fatal, w3)) := by
  have hcalls := callDnsApi_calls env (config.ApiUrl ++ "/records".toList) "POST".toList
    (some (txtRecordJson env ch.Key (recordName ch.ResolvedFQDN config.ZoneName) zoneId))
    config w2
  have hout := callDnsApi_no_panic env (config.ApiUrl ++ "/records".toList) "POST".toList
    (some (txtRecordJson env ch.Key (recordName ch.ResolvedFQDN config.ZoneName) zoneId))
    config w2
  simp only [Present, addTxtRecord, run_bind, hconfig, hid]
  rcases hp : callDnsApi env (config.ApiUrl ++ "/records".toList) "POST".toList
    (some (txtRecordJson env ch.Key (recordName ch.ResolvedFQDN config.ZoneName) zoneId))
    config w2 with ⟨o, w3⟩
  rw [hp] at hcalls hout
  cases o with
  | ret a =>
    refine ⟨hcalls, ?_, ?_⟩
    · intro r w4 h
      simp only [Prod.mk.injEq] at h
      rw [← h.2]
      rfl
    · intro w4 h
      simp only [Prod.mk.injEq] at h
      exact absurd h.1 (by simp)
  | panic msg => exact absurd rfl (hout msg)
  | fatal =>
    refine ⟨hcalls, ?_, ?_⟩
    · intro r w4 h
      simp only [Prod.mk.injEq] at h
      exact absurd h.1 (by simp)
    · intro w4 h
      simp only [Prod.mk.injEq] at h
      rw [← h.2]

/-- The half of the present path that surfaces zone-resolution errors: when the
zone name is not configured and `searchZoneName` returns an error, `Present`
returns that error, wrapped, and everything added to the calls made so far is a
`GET`, so no create call is made. -/
theorem Present_of_search_error {σ : Type} (env : Env σ) (ch : ChallengeRequest)
    (w w1 : World σ) (cfg : hetznerDNSProviderConfig) (secData : Str → Option Str) (st : σ)
    (apiKey found e : Str)
    (hload : loadConfig env ch.Config = (cfg, none))
    (hzone : cfg.ZoneName = [])
    (hsecret : env.getSecret ch.ResourceNamespace cfg.SecretRef w.state = (Except.ok secData, st))
    (hkey : secData "api-key".toList = some apiKey)
    (hsearch : searchZoneName env { ApiKey := apiKey, ZoneName := [], ApiUrl := cfg.ApiUrl }
        (if ¬ HasSuffix ch.ResolvedZone ".".toList then ch.ResolvedZone ++ ".".toList
          else ch.ResolvedZone)
        { state := st, calls := w.calls } = (Outcome.ret (found, some e), w1)) :
    Present env ch w =
        (Outcome.ret (some ("unable to get secret `".toList ++ ch.ResourceNamespace
          ++ "`; ".toList ++ ("error searching for zone for ".toList
          ++ (if ¬ HasSuffix ch.ResolvedZone ".".toList then ch.ResolvedZone ++ ".".toList
              else ch.ResolvedZone)
          ++ ": ".toList ++ e))), w1)
      ∧ ∃ added, w1.calls = w.calls ++ added ∧ ∀ c ∈ added, c.method = "GET".toList := by
  refine ⟨Present_of_clientConfig_error env ch w w1 _ _
    (clientConfig_of_search_error env ch w w1 cfg secData st apiKey found e
      hload hzone hsecret hkey hsearch), ?_⟩
  obtain ⟨added, h1, h2⟩ := searchZoneName_calls env
    { ApiKey := apiKey, ZoneName := [], ApiUrl := cfg.ApiUrl }
    (if ¬ HasSuffix ch.ResolvedZone ".".toList then ch.ResolvedZone ++ ".".toList
      else ch.ResolvedZone)
    { state := st, calls := w.calls }
  rw [hsearch] at h1
  exact ⟨added, h1, h2⟩

/-- An example of `Present_of_search_error`: no zone name is configured and the
directory answers every request with status 500; the search for `example.com.`
fails after one `GET` and `Present` returns the error. -/
theorem Present_of_search_error_example :
    (Present
      (testEnv (fun _ => Except.ok
        { StatusCode := 500, Status := "500 Internal Server Error".toList, Body := [] }))
      (testChallenge configNoZoneJSON) { state := (), calls := [] }).1
    = Outcome.ret (some ("unable to get secret `cert-manager`; ".toList
        ++ "error searching for zone for example.com.: ".toList
        ++ Internal.errNotFound "example.com.".toList)) :=
  congrArg Prod.fst (Present_of_search_error
    (testEnv (fun _ => Except.ok
      { StatusCode := 500, Status := "500 Internal Server Error".toList, Body := [] }))
    (testChallenge configNoZoneJSON) { state := (), calls := [] } _ _ _ () "token".toList []
    (Internal.errNotFound "example.com.".toList) rfl rfl rfl rfl rfl).1

/-- When the lookup of the zone's identifier in `addTxtRecord` returns an error,
the identifier is empty, the create call is issued with it, and `Present`
returns nil when that call returns. -/
theorem Present_after_zone_id_error {σ : Type} (env : Env σ) (ch : ChallengeRequest)
    (w w1 w2 w3 : World σ) (config : Internal.Config) (zoneId e : Str) (r : Str × GoError)
    (hconfig : clientConfig env ch w = (Outcome.ret (config, none), w1))
    (hid : searchZoneId env config w1 = (Outcome.ret (zoneId, some e), w2))
    (hpost : callDnsApi env (config.ApiUrl ++ "/records".toList) "POST".toList
      (some (txtRecordJson env ch.Key (recordName ch.ResolvedFQDN config.ZoneName) []))
      config w2 = (Outcome.ret r, w3)) :
    zoneId = []
    ∧ Present env ch w = (Outcome.ret none, w3)
    ∧ w3.calls = w2.calls ++
        [{ url := config.ApiUrl ++ "/records".toList, method := "POST".toList,
           body := some (txtRecordJson env ch.Key
             (recordName ch.ResolvedFQDN config.ZoneName) []),
           config := config }] := by
  have hempty := searchZoneId_error_id env config w1 w2 zoneId e hid
  subst hempty
  obtain ⟨h1, h2, _⟩ := Present_posts_after_config env ch w w1 w2 config [] (some e) hconfig hid
  have hp := h2 r w3 hpost
  rw [hp] at h1
  exact ⟨rfl, hp, h1⟩

/-- C8, at the failing input. The zone `example.com` is configured
(`configJSON`) and the directory answers every `GET` with status 500 and every
other request with status 422.  The lookup of the zone's identifier in
`addTxtRecord` returns an error, and `Present` does not return it: the create
call, a `POST` on `/records` with an empty `zone_id`, is issued, and `Present`
returns nil. -/
theorem Present_returns_nil_after_zone_id_error :
    clientConfig
        (testEnv (fun req =>
          if req.method = "GET".toList then
            Except.ok { StatusCode := 500, Status := "500 Internal Server Error".toList,
                        Body := [] }
          else
            Except.ok { StatusCode := 422, Status := "422 Unprocessable Entity".toList,
                        Body := [] }))
        (testChallenge configJSON) { state := (), calls := [] }
      = (Outcome.ret (testConfig, none), { state := (), calls := [] })
    ∧ searchZoneId
        (testEnv (fun req =>
          if req.method = "GET".toList then
            Except.ok { StatusCode := 500, Status := "500 Internal Server Error".toList,
                        Body := [] }
          else
            Except.ok { StatusCode := 422, Status := "422 Unprocessable Entity".toList,
                        Body := [] }))
        testConfig { state := (), calls := [] }
      = (Outcome.ret ([], some ("API error getting zone info for 'example.com': ".toList
          ++ "Error calling API status:500 Internal Server Error url: ".toList
          ++ "https://dns.hetzner.com/api/v1/zones?name=example.com method: GET".toList)),
         { state := (),
           calls := [{ url := "https://dns.hetzner.com/api/v1/zones?name=example.com".toList,
                       method := "GET".toList, body := none, config := testConfig }] })
    ∧ Present
        (testEnv (fun req =>
          if req.method = "GET".toList then
            Except.ok { StatusCode := 500, Status := "500 Internal Server Error".toList,
                        Body := [] }
          else
            Except.ok { StatusCode := 422, Status := "422 Unprocessable Entity".toList,
                        Body := [] }))
        (testChallenge configJSON) { state := (), calls := [] }
      = (Outcome.ret none,
         { state := (),
           calls := [{ url := "https://dns.hetzner.com/api/v1/zones?name=example.com".toList,
                       method := "GET".toList, body := none, config := testConfig },
                     { url := "https://dns.hetzner.com/api/v1/records".toList,
                       method := "POST".toList,
                       body := some ("\x7b\"value\":\"dGhlIGtleQ\", \"ttl\":120, ".toList
                         ++ "\"type\":\"TXT\", \"name\":\"_acme-challenge\", ".toList
                         ++ "\"zone_id\":\"\"\x7d".toList),
                       config := testConfig }] }) := by
  refine ⟨rfl, rfl, rfl⟩

/-! ## The record name for a zone found by the search -/

/-- When the normalised FQDN is `record + "." +` the normalised zone name and
`record` is not empty, `recordName` returns `record`. -/
theorem recordName_of_leading_part (fqdn domain record : Str) (hrecord : record ≠ [])
    (h : TrimSuffix fqdn ".".toList = record ++ ".".toList ++ TrimSuffix domain ".".toList) :
    recordName fqdn domain = record := by
  unfold recordName
  have hne : TrimSuffix fqdn ".".toList ≠ TrimSuffix domain ".".toList := by
    intro e
    have hl := congrArg List.length (h.symm.trans e)
    have hp2 : 0 < record.length := List.length_pos.2 hrecord
    simp at hl
    omega
  have hform : TrimSuffix fqdn ".".toList
      = record ++ (".".toList ++ TrimSuffix domain ".".toList) := by
    rw [h, List.append_assoc]
  simp only [if_neg hne]
  rw [if_pos ((HasSuffix_iff _ _).2 ⟨record, hform.symm⟩), hform, TrimSuffix_append,
    if_neg hrecord]

/-- For a search domain `d` that does not end in two dots and the zone made of
the labels of `d` from index `i` on, the record name of `p + "." + d` is `p`
followed by the first `i` labels of `d`. -/
theorem recordName_of_label_suffix (d p : Str) (i : Nat) (hd : ¬ "..".toList <:+ d)
    (hp : p ≠ []) (hi : i + 2 ≤ (Split (TrimSuffix d ".".toList) '.').length) :
    recordName (p ++ ".".toList ++ d)
        (Join ((Split (TrimSuffix d ".".toList) '.').drop i) ".".toList)
      = Join (p :: (Split (TrimSuffix d ".".toList) '.').take i) ".".toList
    ∧ Join (p :: (Split (TrimSuffix d ".".toList) '.').take i) ".".toList ≠ []
    ∧ p ++ ".".toList ++ TrimSuffix d ".".toList
      = Join (p :: (Split (TrimSuffix d ".".toList) '.').take i) ".".toList ++ ".".toList
        ++ Join ((Split (TrimSuffix d ".".toList) '.').drop i) ".".toList := by
  have hjoin : Join (Split (TrimSuffix d ".".toList) '.') ".".toList = TrimSuffix d ".".toList :=
    Join_Split _ '.'
  have hfq := TrimSuffix_prefix_dot p d (by omega)
  have hnodot := not_dot_suffix_TrimSuffix d hd
  generalize Split (TrimSuffix d ".".toList) '.' = parts at hjoin hi ⊢
  have hz : ¬ ".".toList <:+ Join (parts.drop i) ".".toList := by
    intro hs
    apply hnodot
    rw [← hjoin]
    exact hs.trans (Join_drop_suffix parts _ i (by omega))
  have hrecord : Join (p :: parts.take i) ".".toList ≠ [] := by
    cases parts.take i with
    | nil => exact hp
    | cons a rest =>
      rw [Join_cons_cons]
      intro e
      have hl := congrArg List.length e
      have hp2 : 0 < p.length := List.length_pos.2 hp
      rw [List.length_append, List.length_append, List.length_nil] at hl
      omega
  have hy : parts.drop i ≠ [] := by
    intro e
    have hl := congrArg List.length e
    rw [List.length_drop, List.length_nil] at hl
    omega
  have hdecomp : p ++ ".".toList ++ TrimSuffix d ".".toList
      = Join (p :: parts.take i) ".".toList ++ ".".toList
        ++ Join (parts.drop i) ".".toList := by
    have h := Join_append (p :: parts.take i) (parts.drop i) ".".toList (by simp) hy
    rw [List.cons_append, List.take_append_drop] at h
    rw [← h, ← hjoin]
    cases parts with
    | nil => simp at hi
    | cons a rest => rfl
  refine ⟨recordName_of_leading_part _ _ _ hrecord ?_, hrecord, hdecomp⟩
  rw [hfq, TrimSuffix_of_not_suffix _ _ hz, hdecomp]

/-- The record name of `p + "." + d` against a zone made of the labels of `d`
from some index on. -/
theorem recordName_of_candidate (d p z : Str) (hd : ¬ "..".toList <:+ d) (hp : p ≠ [])
    (hz : ∃ i, i + 2 ≤ (Split (TrimSuffix d ".".toList) '.').length
      ∧ z = Join ((Split (TrimSuffix d ".".toList) '.').drop i) ".".toList) :
    recordName (p ++ ".".toList ++ d) z ≠ []
    ∧ (∃ i, i + 2 ≤ (Split (TrimSuffix d ".".toList) '.').length
        ∧ z = Join ((Split (TrimSuffix d ".".toList) '.').drop i) ".".toList
        ∧ recordName (p ++ ".".toList ++ d) z
          = Join (p :: (Split (TrimSuffix d ".".toList) '.').take i) ".".toList)
    ∧ (z = TrimSuffix d ".".toList → recordName (p ++ ".".toList ++ d) z = p) := by
  obtain ⟨i, hi, rfl⟩ := hz
  obtain ⟨h1, h2, h3⟩ := recordName_of_label_suffix d p i hd hp hi
  refine ⟨by rw [h1]; exact h2, ⟨i, hi, rfl, h1⟩, ?_⟩
  intro hwhole
  rw [h1]
  rw [hwhole] at h3
  exact (List.append_cancel_right (List.append_cancel_right h3)).symm

/-- A zone name that `searchZoneName` of `main.go` returns with a nil error is
the join of the labels of the normalised input from some index on, at least two
of them. -/
theorem searchZoneName_main_found {σ : Type} (env : Env σ) (config : Internal.Config)
    (searchZone : Str) (w w1 : World σ) (z : Str)
    (h : searchZoneName env config searchZone w = (Outcome.ret (z, none), w1)) :
    ∃ i, i + 2 ≤ (Split (TrimSuffix searchZone ".".toList) '.').length
      ∧ z = Join ((Split (TrimSuffix searchZone ".".toList) '.').drop i) ".".toList := by
  apply Internal.searchZoneName_found searchZone (zoneIdResolver env config) w w1 z
  rw [← h]
  simp only [searchZoneName, Internal.searchZoneName]
  by_cases hlen : (Split (TrimSuffix searchZone ".".toList) '.').length < 2
  · rw [if_pos hlen, if_pos hlen]
  · rw [if_neg hlen, if_neg hlen]
    exact (congrFun
      (searchZoneNameLoop_eq_internal env config searchZone _ _ 0 config rfl rfl) w).symm

/-- C11. A zone found by the search gives a usable record name for a challenge
under the searched domain.  For every search domain `d` that does not end in
two dots and every non-empty prefix `p`: whenever `searchZoneName` on `d`
returns a zone `z` with a nil error, for an arbitrary resolver (the function of
package `internal`) and for the directory of an arbitrary outside (the function
of `main.go`), `recordName(p + "." + d, z)` is not empty; `z` is the join of the
labels of `d` from some index `i` on and the record name is `p` followed by the
`i` labels before it; and it is exactly `p` when `z` is `d` without its trailing
dot. -/
theorem recordName_of_found_zone (d p : Str) (hd : ¬ "..".toList <:+ d) (hp : p ≠ []) :
    (∀ (ω : Type) (searcher : Internal.zoneIdSearcher ω) (w w1 : ω) (z : Str),
      Internal.searchZoneName d searcher w = (Outcome.ret (z, none), w1) →
      recordName (p ++ ".".toList ++ d) z ≠ []
      ∧ (∃ i, i + 2 ≤ (Split (TrimSuffix d ".".toList) '.').length
          ∧ z = Join ((Split (TrimSuffix d ".".toList) '.').drop i) ".".toList
          ∧ recordName (p ++ ".".toList ++ d) z
            = Join (p :: (Split (TrimSuffix d ".".toList) '.').take i) ".".toList)
      ∧ (z = TrimSuffix d ".".toList → recordName (p ++ ".".toList ++ d) z = p))
    ∧ (∀ (σ : Type) (env : Env σ) (config : Internal.Config) (w w1 : World σ) (z : Str),
      searchZoneName env config d w = (Outcome.ret (z, none), w1) →
      recordName (p ++ ".".toList ++ d) z ≠ []
      ∧ (∃ i, i + 2 ≤ (Split (TrimSuffix d ".".toList) '.').length
          ∧ z = Join ((Split (TrimSuffix d ".".toList) '.').drop i) ".".toList
          ∧ recordName (p ++ ".".toList ++ d) z
            = Join (p :: (Split (TrimSuffix d ".".toList) '.').take i) ".".toList)
      ∧ (z = TrimSuffix d ".".toList → recordName (p ++ ".".toList ++ d) z = p)) :=
  ⟨fun _ searcher w w1 z h =>
      recordName_of_candidate d p z hd hp (Internal.searchZoneName_found d searcher w w1 z h),
   fun _ env config w w1 z h =>
      recordName_of_candidate d p z hd hp (searchZoneName_main_found env config d w w1 z h)⟩

/-- Witness of C11: the search for `www.example.com.` with a resolver that knows
only `example.com` finds `example.com`, and the record name of
`_acme-challenge.www.example.com.` in that zone is `_acme-challenge.www`; the
same through `main.go` with `testDirectory`, which lists one zone for
`example.com` and none for any other name. -/
theorem recordName_of_found_zone_witness :
    (recordName ("_acme-challenge".toList ++ ".".toList ++ "www.example.com.".toList)
        "example.com".toList ≠ []
      ∧ (∃ i, i + 2 ≤ (Split (TrimSuffix "www.example.com.".toList ".".toList) '.').length
          ∧ "example.com".toList
            = Join ((Split (TrimSuffix "www.example.com.".toList ".".toList) '.').drop i)
                ".".toList
          ∧ recordName ("_acme-challenge".toList ++ ".".toList ++ "www.example.com.".toList)
              "example.com".toList
            = Join ("_acme-challenge".toList
                :: (Split (TrimSuffix "www.example.com.".toList ".".toList) '.').take i)
                ".".toList)
      ∧ ("example.com".toList = TrimSuffix "www.example.com.".toList ".".toList →
          recordName ("_acme-challenge".toList ++ ".".toList ++ "www.example.com.".toList)
            "example.com".toList = "_acme-challenge".toList))
    ∧ recordName ("_acme-challenge".toList ++ ".".toList ++ "www.example.com.".toList)
        "example.com".toList ≠ [] :=
  ⟨(recordName_of_found_zone "www.example.com.".toList "_acme-challenge".toList
      (by decide) (by decide)).1 Unit
      (Internal.pureSearcher
        (Internal.mockZoneIdSearcher [("example.com".toList, "zone456".toList)] []))
      () () "example.com".toList rfl,
   ((recordName_of_found_zone "www.example.com.".toList "_acme-challenge".toList
      (by decide) (by decide)).2 Unit
      (testEnv testDirectory)
      { ApiKey := "token".toList, ApiUrl := "https://dns.hetzner.com/api/v1".toList }
      { state := (), calls := [] } _ "example.com".toList rfl).1⟩

end Main

end Hetzner
